import Mathlib

/-!
Verification of the Hailo vDMA common layer (`common/vdma_common.h`).

The header declares the data model (descriptor lists, channels, engines,
ongoing-transfer queues) and contains two inline functions
(`hailo_vdma_engine_got_interrupt`, `hailo_vdma_engine_read_interrupts`)
which are embedded here directly.  The bodies of the remaining declared
functions (`hailo_vdma_program_descriptors_in_chunk`,
`hailo_vdma_program_descriptors_list`, `hailo_vdma_launch_transfer`,
`hailo_vdma_engine_fill_irq_data`) live in `vdma_common.c`, which is not
part of the repository snapshot; those are modelled from the specification
and are marked as such in their doc comments.

Machine integers are embedded as `Nat` with explicit `% 2^w` / masking
where overflow matters.  Stateful C functions become explicit state
passing: a function that mutates a struct through a pointer returns the
updated structure next to its C return value.
-/

/-- Sentinel returned by the Descriptor Codec for an unrepresentable range
(`INVALID_VDMA_ADDRESS`, vdma_common.h line 17). -/
def INVALID_VDMA_ADDRESS : Nat := 0

/-- Modulus of the `u32` type: bitmaps and descriptor indices are `u32`. -/
def U32_MOD : Nat := 2 ^ 32

/-- All-ones value of `u32`.  The C complement `~x` of a `u32` is
`U32_MASK ^^^ x`. -/
def U32_MASK : Nat := 2 ^ 32 - 1

/-- Modulus of the `u16` type: the `num_avail` / `num_proc` channel
counters are `u16`. -/
def U16_MOD : Nat := 2 ^ 16

/-- `DIV_ROUND_UP(a, b)` of the Linux kernel: ceiling division on `Nat`. -/
def div_round_up (a b : Nat) : Nat := (a + b - 1) / b

/-- The descriptor-count mask documented at vdma_common.h lines 44-48:
"The nearest power of 2 to desc_count (including desc_count), minus 1."
`2 ^ Nat.clog 2 n` is the least power of two at or above `n` (for `n ≥ 1`),
so this is that power of two, minus one. -/
def desc_count_mask (desc_count : Nat) : Nat := 2 ^ Nat.clog 2 desc_count - 1

/-- Modelled from the spec: the contents written into one
`struct hailo_vdma_descriptor` slot by the Transfer Programmer.  The
bit-packing of these fields into the four hardware `u32` words is done by
`vdma_common.c`, which is not under src/, so the fields are kept unpacked:
`size` is the page-size field, `addr` the encoded DMA address of the chunk
covered by this descriptor, `data_id` the memory-space tag and
`interrupts_domain` the interrupt-request bits of this descriptor. -/
structure hailo_vdma_descriptor where
  size : Nat
  addr : Nat
  data_id : Nat
  interrupts_domain : Nat
deriving DecidableEq, Inhabited

/-- `struct hailo_vdma_descriptors_list` (vdma_common.h lines 40-51).
The backing array is a `List` of descriptor contents. -/
structure hailo_vdma_descriptors_list where
  desc_list : List hailo_vdma_descriptor
  desc_count : Nat
  desc_count_mask : Nat
  desc_page_size : Nat
  is_circular : Bool
deriving DecidableEq, Inhabited

/-- `struct hailo_vdma_mapped_transfer_buffer` (vdma_common.h lines 66-71).
Modelled from the spec: the scatter-gather table is a list of
(dma address, length) segments; `size` / `offset` select a sub-range of
that mapping. -/
structure hailo_vdma_mapped_transfer_buffer where
  sg_table : List (Nat × Nat)
  size : Nat
  offset : Nat
deriving DecidableEq, Inhabited

/-- `struct hailo_ongoing_transfer` (vdma_common.h lines 73-87), reduced to
the fields the verified operations inspect: the terminal descriptor index,
the number of buffers and the debug flag. -/
structure hailo_ongoing_transfer where
  last_desc : Nat
  buffers_count : Nat
  is_debug : Bool
deriving DecidableEq, Inhabited

/-- `HAILO_VDMA_MAX_ONGOING_TRANSFERS`.  Modelled from the spec: the
constant is defined in `hailo_ioctl_common.h`, which is not under src/;
the spec only requires a fixed capacity `C`. -/
def HAILO_VDMA_MAX_ONGOING_TRANSFERS : Nat := 128

/-- `struct hailo_ongoing_transfers_list` (vdma_common.h lines 89-93):
head and tail are monotonic counters; the slot of a counter value is the
counter modulo the capacity. -/
structure hailo_ongoing_transfers_list where
  head : Nat
  tail : Nat
  transfers : List hailo_ongoing_transfer
deriving DecidableEq, Inhabited

/-- Queue-full test: per the spec, the queue is full when tail − head
equals the capacity. -/
def ongoing_transfers_full (q : hailo_ongoing_transfers_list) : Bool :=
  decide (HAILO_VDMA_MAX_ONGOING_TRANSFERS ≤ q.tail - q.head)

/-- Number of queued (submitted, not yet completed) transfers. -/
def ongoing_transfers_size (q : hailo_ongoing_transfers_list) : Nat :=
  q.tail - q.head

/-- Push one transfer record: write slot `tail % capacity`, advance tail. -/
def ongoing_transfers_push (q : hailo_ongoing_transfers_list)
    (t : hailo_ongoing_transfer) : hailo_ongoing_transfers_list :=
  { q with
    tail := q.tail + 1
    transfers := q.transfers.set (q.tail % HAILO_VDMA_MAX_ONGOING_TRANSFERS) t }

/-- The oldest (head) queued transfer. -/
def ongoing_transfers_peek (q : hailo_ongoing_transfers_list) :
    hailo_ongoing_transfer :=
  q.transfers.getD (q.head % HAILO_VDMA_MAX_ONGOING_TRANSFERS) default

/-- Pop the oldest queued transfer: advance head. -/
def ongoing_transfers_pop (q : hailo_ongoing_transfers_list) :
    hailo_ongoing_transfers_list :=
  { q with head := q.head + 1 }

/-- The queued transfers in submission (FIFO) order. -/
def ongoing_transfers_content (q : hailo_ongoing_transfers_list) :
    List hailo_ongoing_transfer :=
  (List.range (q.tail - q.head)).map
    (fun i => q.transfers.getD ((q.head + i) % HAILO_VDMA_MAX_ONGOING_TRANSFERS) default)

/-- `struct hailo_vdma_channel_state` (vdma_common.h lines 95-104). -/
structure hailo_vdma_channel_state where
  num_avail : Nat
  num_proc : Nat
  desc_count_mask : Nat
deriving DecidableEq, Inhabited

/-- `struct hailo_vdma_channel` (vdma_common.h lines 106-121).  The host
register window is modelled by the last values written to / readable from
its `CHANNEL_NUM_AVAIL` and `CHANNEL_NUM_PROC` words (the register
protocol of spec section 6): `host_regs_num_avail` is the mirrored
available counter, `host_regs_num_proc` the hardware-owned processed
counter. -/
structure hailo_vdma_channel where
  index : Nat
  host_regs_num_avail : Nat
  host_regs_num_proc : Nat
  state : hailo_vdma_channel_state
  ongoing_transfers : hailo_ongoing_transfers_list
deriving DecidableEq, Inhabited

/-- `struct hailo_vdma_engine` (vdma_common.h lines 123-128). -/
structure hailo_vdma_engine where
  index : Nat
  enabled_channels : Nat
  interrupted_channels : Nat
  channels : List hailo_vdma_channel
deriving DecidableEq, Inhabited

/-- `struct hailo_vdma_hw` (vdma_common.h lines 130-149): the pluggable
Descriptor Codec (`encode_desc_dma_address_range` takes the range start,
the range end, the step and the channel id and returns the encoded base
address, or `INVALID_VDMA_ADDRESS` if the range/step is invalid) together
with the per-variant `ddr_data_id` constant. -/
structure hailo_vdma_hw where
  encode_desc_dma_address_range : Nat → Nat → Nat → Nat → Nat
  ddr_data_id : Nat

/-- `hailo_vdma_engine_got_interrupt` (vdma_common.h lines 242-249), in
state-passing form.  The body performs no store, so the returned engine is
the argument engine. -/
def hailo_vdma_engine_got_interrupt (engine : hailo_vdma_engine)
    (channels_bitmap : Nat) : Bool × hailo_vdma_engine :=
  let any_interrupt : Bool := decide (0 ≠ channels_bitmap &&& engine.interrupted_channels)
  let any_disabled : Bool := decide (channels_bitmap ≠ channels_bitmap &&& engine.enabled_channels)
  (any_disabled || any_interrupt, engine)

/-- `hailo_vdma_engine_read_interrupts` (vdma_common.h lines 255-265), in
state-passing form: returns the C return value
`requested_bitmap & enabled_channels & interrupted_channels` together with
the engine after the store
`interrupted_channels &= ~irq_channels_bitmap` (the `u32` complement is
`U32_MASK ^^^ ·`). -/
def hailo_vdma_engine_read_interrupts (engine : hailo_vdma_engine)
    (requested_bitmap : Nat) : Nat × hailo_vdma_engine :=
  let irq_channels_bitmap := requested_bitmap &&& engine.enabled_channels &&&
    engine.interrupted_channels
  (irq_channels_bitmap,
    { engine with
      interrupted_channels :=
        engine.interrupted_channels &&& (U32_MASK ^^^ irq_channels_bitmap) })

/-- Interrupt-domain value "no interrupt requested".  Modelled from the
spec: the `enum hailo_vdma_interrupts_domain` is declared in
`hailo_ioctl_common.h`, which is not under src/. -/
def HAILO_VDMA_INTERRUPTS_DOMAIN_NONE : Nat := 0

/-- Interrupt-domain value "signal the device". Modelled from the spec
(see `HAILO_VDMA_INTERRUPTS_DOMAIN_NONE`). -/
def HAILO_VDMA_INTERRUPTS_DOMAIN_DEVICE : Nat := 1

/-- Interrupt-domain value "signal the host". Modelled from the spec
(see `HAILO_VDMA_INTERRUPTS_DOMAIN_NONE`). -/
def HAILO_VDMA_INTERRUPTS_DOMAIN_HOST : Nat := 2

/-- `-EFAULT`: the error returned for an invalid address encoding or for
insufficient descriptor space.  Modelled from the spec (error kinds of
section 7); the concrete errno is not visible in src/. -/
def EFAULT_NEG : Int := -14

/-- `-ENOBUFS`: the queue-full backpressure error of `launch_transfer`.
Modelled from the spec (section 7); the concrete errno is not visible in
src/. -/
def ENOBUFS_NEG : Int := -105

/-- The ring slot a raw descriptor index refers to: the index is reduced
with the list's mask if the list is circular (spec section 4.2:
"wrapping via the list's mask if circular"). -/
def desc_ring_index (dl : hailo_vdma_descriptors_list) (i : Nat) : Nat :=
  if dl.is_circular then i &&& dl.desc_count_mask else i

/-- Store one descriptor record into slot `i` of the list's backing
array. -/
def write_descriptor (dl : hailo_vdma_descriptors_list) (i : Nat)
    (d : hailo_vdma_descriptor) : hailo_vdma_descriptors_list :=
  { dl with desc_list := dl.desc_list.set i d }

/-- Apply an ordered trace of (slot, record) descriptor stores. -/
def apply_writes (dl : hailo_vdma_descriptors_list)
    (ws : List (Nat × hailo_vdma_descriptor)) : hailo_vdma_descriptors_list :=
  ws.foldl (fun acc w => write_descriptor acc w.1 w.2) dl

/-- Modelled from the spec: the `j`-th of the `k` descriptors of one
chunk (spec section 4.2) — each is sized at the list's configured page
size except the final one, which takes the residue of `chunk_size`; the
`j`-th descriptor covers the range starting `j` pages after the encoded
base address. -/
def chunk_descriptor (encoded_addr chunk_size page_size data_id j k : Nat) :
    hailo_vdma_descriptor :=
  { size :=
      if j + 1 = k then
        (if chunk_size % page_size = 0 then page_size else chunk_size % page_size)
      else page_size
    addr := encoded_addr + j * page_size
    data_id := data_id
    interrupts_domain := HAILO_VDMA_INTERRUPTS_DOMAIN_NONE }

/-- The ordered (slot, record) stores performed for one chunk: successive
raw indices starting at `desc_index`, wrapped per `desc_ring_index`. -/
def chunk_writes (dl : hailo_vdma_descriptors_list)
    (encoded_addr chunk_size desc_index data_id : Nat) :
    List (Nat × hailo_vdma_descriptor) :=
  (List.range (div_round_up chunk_size dl.desc_page_size)).map
    (fun j => (desc_ring_index dl (desc_index + j),
      chunk_descriptor encoded_addr chunk_size dl.desc_page_size data_id j
        (div_round_up chunk_size dl.desc_page_size)))

/-- `hailo_vdma_program_descriptors_in_chunk` (declared at vdma_common.h
lines 184-192; its body in vdma_common.c is not under src/).  Modelled
from the spec (section 4.2): encodes the chunk's address range via the
Codec, then writes `div_round_up chunk_size desc_page_size` successive
descriptors starting at `desc_index` (wrapping via the list's mask if
circular), each of the configured page size except the final one, which
takes the residue; fails if the chunk requires more descriptors than fit
between `desc_index` and `max_desc_index`, or if the Codec returns
`INVALID_VDMA_ADDRESS`.  On success returns the updated list, the ordered
store trace and the count of descriptors programmed (the C return
value). -/
def hailo_vdma_program_descriptors_in_chunk (vdma_hw : hailo_vdma_hw)
    (chunk_addr chunk_size : Nat) (dl : hailo_vdma_descriptors_list)
    (desc_index max_desc_index channel_index data_id : Nat) :
    Except Int (hailo_vdma_descriptors_list × List (Nat × hailo_vdma_descriptor) × Nat) :=
  let descs_to_program := div_round_up chunk_size dl.desc_page_size
  let encoded_addr := vdma_hw.encode_desc_dma_address_range chunk_addr
    (chunk_addr + chunk_size) dl.desc_page_size channel_index
  if max_desc_index - desc_index < descs_to_program then
    .error EFAULT_NEG
  else if encoded_addr = INVALID_VDMA_ADDRESS then
    .error EFAULT_NEG
  else
    let ws := chunk_writes dl encoded_addr chunk_size desc_index data_id
    .ok (apply_writes dl ws, ws, descs_to_program)

/-- Modelled from the spec: the contiguous DMA chunks covering the
sub-range `[offset, offset + size)` of a buffer's scatter-gather mapping
(spec: "size/offset describe a sub-range of the underlying scatter-gather
mapping"; the Transfer Programmer "iterates the scatter-gather segments",
"splitting each segment into page-sized chunks" is done by the chunk
programmer). -/
def sg_chunks : List (Nat × Nat) → Nat → Nat → List (Nat × Nat)
  | [], _, _ => []
  | (addr, len) :: rest, off, size =>
    if size = 0 then []
    else if len ≤ off then sg_chunks rest (off - len) size
    else
      if size ≤ len - off then [(addr + off, size)]
      else (addr + off, len - off) :: sg_chunks rest 0 (size - (len - off))

/-- Modelled from the spec: the binding loop of the Transfer Programmer —
delegates each contiguous chunk to the chunk programmer, threading the
descriptor index forward by the count each chunk consumed, and sums the
counts. -/
def program_chunks_loop (vdma_hw : hailo_vdma_hw) :
    List (Nat × Nat) → hailo_vdma_descriptors_list → Nat → Nat → Nat → Nat →
    Except Int (hailo_vdma_descriptors_list × Nat)
  | [], dl, _, _, _, _ => .ok (dl, 0)
  | (addr, len) :: rest, dl, desc_index, max_desc_index, channel_index, data_id =>
    match hailo_vdma_program_descriptors_in_chunk vdma_hw addr len dl desc_index
        max_desc_index channel_index data_id with
    | .error e => .error e
    | .ok (dl', _, k) =>
      match program_chunks_loop vdma_hw rest dl' (desc_index + k) max_desc_index
          channel_index data_id with
      | .error e => .error e
      | .ok (dl'', t) => .ok (dl'', k + t)

/-- Modelled from the spec: the `should_bind = true` path of
`hailo_vdma_program_descriptors_list` — iterates the scatter-gather
chunks of the buffer through the chunk programmer, then applies the
requested interrupt-domain bits to the last descriptor written for the
buffer (spec section 4.2).  A transfer must program at least one
descriptor. -/
def bind_and_program_descriptors_list (vdma_hw : hailo_vdma_hw)
    (dl : hailo_vdma_descriptors_list) (starting_desc : Nat)
    (buffer : hailo_vdma_mapped_transfer_buffer) (channel_index : Nat)
    (last_desc_interrupts : Nat) :
    Except Int (hailo_vdma_descriptors_list × Nat) :=
  let max_desc_index := starting_desc + dl.desc_count - 1
  match program_chunks_loop vdma_hw (sg_chunks buffer.sg_table buffer.offset buffer.size)
      dl starting_desc max_desc_index channel_index vdma_hw.ddr_data_id with
  | .error e => .error e
  | .ok (dl', total_descs) =>
    if total_descs = 0 then .error EFAULT_NEG
    else
      let last_desc := desc_ring_index dl' (starting_desc + total_descs - 1)
      let old := dl'.desc_list.getD last_desc default
      .ok (write_descriptor dl' last_desc
        { old with interrupts_domain := last_desc_interrupts }, total_descs)

/-- Modelled from the spec: the `should_bind = false` path of
`hailo_vdma_program_descriptors_list` — skips re-deriving segment
boundaries and re-encoding addresses (a prior call already bound this
buffer to this region of the list, so the descriptors already reflect
this buffer); it refreshes the final descriptor's residue size and applies
the requested last-descriptor interrupt bits, and returns the same
descriptor count as the binding path. -/
def program_last_desc (dl : hailo_vdma_descriptors_list) (starting_desc : Nat)
    (buffer : hailo_vdma_mapped_transfer_buffer) (last_desc_interrupts : Nat) :
    Except Int (hailo_vdma_descriptors_list × Nat) :=
  let total_descs := div_round_up buffer.size dl.desc_page_size
  let last_desc := desc_ring_index dl (starting_desc + total_descs - 1)
  let last_desc_size := buffer.size - (total_descs - 1) * dl.desc_page_size
  let old := dl.desc_list.getD last_desc default
  .ok (write_descriptor dl last_desc
    { old with size := last_desc_size, interrupts_domain := last_desc_interrupts },
    total_descs)

/-- `hailo_vdma_program_descriptors_list` (declared at vdma_common.h lines
174-182; its body in vdma_common.c is not under src/).  Modelled from the
spec (section 4.2): dispatches to the binding path, or — when
`should_bind` is false — to the bind-skip path (a pure optimization).
`is_debug` only changes hardware status reporting, which is outside the
modelled descriptor contents. -/
def hailo_vdma_program_descriptors_list (vdma_hw : hailo_vdma_hw)
    (dl : hailo_vdma_descriptors_list) (starting_desc : Nat)
    (buffer : hailo_vdma_mapped_transfer_buffer) (should_bind : Bool)
    (channel_index : Nat) (last_desc_interrupts : Nat) (is_debug : Bool) :
    Except Int (hailo_vdma_descriptors_list × Nat) :=
  if should_bind then
    bind_and_program_descriptors_list vdma_hw dl starting_desc buffer
      channel_index last_desc_interrupts
  else
    program_last_desc dl starting_desc buffer last_desc_interrupts

/-- Modelled from the spec: step (1) of `launch_transfer` — program each
of the transfer's buffers in order through
`hailo_vdma_program_descriptors_list`, threading the descriptor index
forward and propagating the last-descriptor interrupt setting to the last
buffer only; returns the updated list and the total count of descriptors
programmed. -/
def program_buffers_loop (vdma_hw : hailo_vdma_hw) :
    List hailo_vdma_mapped_transfer_buffer → hailo_vdma_descriptors_list →
    Nat → Nat → Nat → Bool → Bool →
    Except Int (hailo_vdma_descriptors_list × Nat)
  | [], dl, _, _, _, _, _ => .ok (dl, 0)
  | b :: rest, dl, starting_desc, channel_index, last_desc_interrupts,
      should_bind, is_debug =>
    match hailo_vdma_program_descriptors_list vdma_hw dl starting_desc b
        should_bind channel_index
        (if rest.isEmpty then last_desc_interrupts
          else HAILO_VDMA_INTERRUPTS_DOMAIN_NONE) is_debug with
    | .error e => .error e
    | .ok (dl', k) =>
      match program_buffers_loop vdma_hw rest dl' (starting_desc + k)
          channel_index last_desc_interrupts should_bind is_debug with
      | .error e => .error e
      | .ok (dl'', t) => .ok (dl'', k + t)

/-- `hailo_vdma_launch_transfer` (declared at vdma_common.h lines 218-228;
its body in vdma_common.c is not under src/).  Modelled from the spec
(section 4.3): fails with the queue-full backpressure error if the
Ongoing Transfer Queue has no free slot; programs every buffer (also
applying the first-descriptor interrupt setting); and only after
descriptor programming fully succeeds advances the channel's
available-counter by the total count (mod 2^16), mirrors it to the
hardware register and pushes the ongoing-transfer record.  The result is
the C return value (count of descriptors programmed, or a negative error)
next to the channel and the descriptors list after the call; on failure
both are returned unchanged. -/
def hailo_vdma_launch_transfer (vdma_hw : hailo_vdma_hw)
    (channel : hailo_vdma_channel) (dl : hailo_vdma_descriptors_list)
    (starting_desc : Nat) (buffers : List hailo_vdma_mapped_transfer_buffer)
    (should_bind : Bool) (first_interrupts_domain last_desc_interrupts : Nat)
    (is_debug : Bool) :
    Except Int Nat × hailo_vdma_channel × hailo_vdma_descriptors_list :=
  if ongoing_transfers_full channel.ongoing_transfers then
    (.error ENOBUFS_NEG, channel, dl)
  else
    match program_buffers_loop vdma_hw buffers dl starting_desc channel.index
        last_desc_interrupts should_bind is_debug with
    | .error e => (.error e, channel, dl)
    | .ok (dl', total_descs) =>
      let dl'' :=
        if first_interrupts_domain = HAILO_VDMA_INTERRUPTS_DOMAIN_NONE then dl'
        else
          let fi := desc_ring_index dl' starting_desc
          let old := dl'.desc_list.getD fi default
          write_descriptor dl' fi
            { old with interrupts_domain :=
                old.interrupts_domain ||| first_interrupts_domain }
      let last_desc := desc_ring_index dl (starting_desc + total_descs - 1)
      let new_num_avail := (channel.state.num_avail + total_descs) % U16_MOD
      (.ok total_descs,
        { channel with
          state := { channel.state with num_avail := new_num_avail }
          host_regs_num_avail := new_num_avail
          ongoing_transfers := ongoing_transfers_push channel.ongoing_transfers
            { last_desc := last_desc
              buffers_count := buffers.length
              is_debug := is_debug } },
        dl'')

/-- Iterated submission: apply `hailo_vdma_launch_transfer` `n` times with
fixed transfer parameters, threading channel state and descriptors list
(a failed submission leaves both unchanged). -/
def launch_transfer_iter (vdma_hw : hailo_vdma_hw) (starting_desc : Nat)
    (buffers : List hailo_vdma_mapped_transfer_buffer) (should_bind : Bool)
    (first_interrupts_domain last_desc_interrupts : Nat) (is_debug : Bool) :
    Nat → hailo_vdma_channel × hailo_vdma_descriptors_list →
    hailo_vdma_channel × hailo_vdma_descriptors_list
  | 0, s => s
  | n + 1, s =>
    let r := hailo_vdma_launch_transfer vdma_hw s.1 s.2 starting_desc buffers
      should_bind first_interrupts_domain last_desc_interrupts is_debug
    launch_transfer_iter vdma_hw starting_desc buffers should_bind
      first_interrupts_domain last_desc_interrupts is_debug n (r.2.1, r.2.2)

/-- Modelled from the spec: ring difference `a - b` of two counters under
`mask` (the spec's "ring-distance comparison, not raw numeric
comparison"; with `mask + 1` a power of two this is `(a - b) mod
(mask + 1)` of the wrapping machine subtraction). -/
def ring_sub (a b mask : Nat) : Nat :=
  (a + (mask + 1) - (b &&& mask)) &&& mask

/-- Modelled from the spec (section 4.4): a transfer is complete once the
hardware processed-counter, interpreted as a ring position, has advanced
past the transfer's terminal descriptor index, accounting for wraparound
— both measured as ring distances from the channel's last seen processed
counter. -/
def is_transfer_complete (state_num_proc hw_num_proc last_desc mask : Nat) :
    Bool :=
  decide (ring_sub (last_desc + 1) state_num_proc mask ≤
    ring_sub hw_num_proc state_num_proc mask)

/-- Modelled from the spec (section 4.4): the completion drain loop — pop
the oldest queued transfer while it is complete, collecting the popped
transfers in pop order; stop at the first incomplete transfer.  `fuel`
bounds the recursion and is instantiated with the queue size. -/
def drain_completed_loop (state_num_proc hw_num_proc mask : Nat) :
    Nat → hailo_ongoing_transfers_list →
    hailo_ongoing_transfers_list × List hailo_ongoing_transfer
  | 0, q => (q, [])
  | fuel + 1, q =>
    if q.head = q.tail then (q, [])
    else
      let t := ongoing_transfers_peek q
      if is_transfer_complete state_num_proc hw_num_proc t.last_desc mask then
        let r := drain_completed_loop state_num_proc hw_num_proc mask fuel
          (ongoing_transfers_pop q)
        (r.1, t :: r.2)
      else (q, [])

/-- Modelled from the spec (section 4.4): the per-channel completion drain
performed by `fill_irq_data` — read the hardware processed counter from
the channel register window, pop newly completed transfers in FIFO order
and record the hardware counter as the last seen processed counter. -/
def hailo_vdma_channel_drain_completed (channel : hailo_vdma_channel) :
    hailo_vdma_channel × List hailo_ongoing_transfer :=
  let hw_num_proc := channel.host_regs_num_proc
  let r := drain_completed_loop channel.state.num_proc hw_num_proc
    channel.state.desc_count_mask
    (ongoing_transfers_size channel.ongoing_transfers)
    channel.ongoing_transfers
  ({ channel with
      ongoing_transfers := r.1
      state := { channel.state with num_proc := hw_num_proc } },
    r.2)

/-- `hailo_vdma_engine_fill_irq_data` (declared at vdma_common.h lines
271-273; its body in vdma_common.c is not under src/).  Modelled from the
spec (section 4.5): for each channel whose bit is set in
`irq_channels_bitmap`, drains newly completed Ongoing Transfers per the
completion rule of section 4.4, invoking the completion callback once per
completed transfer.  The callback invocations are represented by the
returned list of (channel index, completed transfers in pop order)
entries; the engine is returned with the drained channels updated. -/
def hailo_vdma_engine_fill_irq_data (engine : hailo_vdma_engine)
    (irq_channels_bitmap : Nat) :
    hailo_vdma_engine × List (Nat × List hailo_ongoing_transfer) :=
  let results := engine.channels.map (fun ch =>
    if irq_channels_bitmap.testBit ch.index then
      let r := hailo_vdma_channel_drain_completed ch
      (r.1, some (ch.index, r.2))
    else (ch, none))
  ({ engine with channels := results.map Prod.fst },
    results.filterMap Prod.snd)

/-- Test fixture: a Codec that encodes every range to base address
4096 (any nonzero value is a valid encoding). -/
def hwT : hailo_vdma_hw :=
  { encode_desc_dma_address_range := fun _ _ _ _ => 4096
    ddr_data_id := 0 }

/-- Test fixture: a circular 16-descriptor list with 4096-byte pages
(the scenario list of spec section 8). -/
def dlT : hailo_vdma_descriptors_list :=
  { desc_list := List.replicate 16 default
    desc_count := 16
    desc_count_mask := 15
    desc_page_size := 4096
    is_circular := true }

/-- Test fixture: one 10000-byte buffer at offset 0 of a single
16384-byte scatter-gather segment (the scenario buffer of spec
section 8). -/
def bufT : hailo_vdma_mapped_transfer_buffer :=
  { sg_table := [(8192, 16384)], size := 10000, offset := 0 }

/-- Test fixture: a channel with an empty ongoing-transfer queue and
zeroed counters. -/
def chT : hailo_vdma_channel :=
  { index := 0
    host_regs_num_avail := 0
    host_regs_num_proc := 0
    state := { num_avail := 0, num_proc := 0, desc_count_mask := 15 }
    ongoing_transfers := { head := 0, tail := 0, transfers := [] } }

/-- Test fixture: a tiny circular 2-descriptor list with 4-byte pages. -/
def dlS : hailo_vdma_descriptors_list :=
  { desc_list := List.replicate 2 default
    desc_count := 2
    desc_count_mask := 1
    desc_page_size := 4
    is_circular := true }

/-- Test fixture: a 100-byte buffer — oversized for `dlS`, whose ring
bounds only one descriptor, so programming it must fail. -/
def bufBig : hailo_vdma_mapped_transfer_buffer :=
  { sg_table := [(0, 100)], size := 100, offset := 0 }

/-- The configuration fields of a descriptors list (everything except the
backing array): descriptor programming succeeds or fails, and returns its
counts, depending only on these. -/
def desc_list_shape (dl : hailo_vdma_descriptors_list) : Nat × Nat × Nat × Bool :=
  (dl.desc_count, dl.desc_count_mask, dl.desc_page_size, dl.is_circular)

/-- Test fixture: the list obtained by binding `bufT` onto `dlT` at
descriptor 0 — its descriptors already reflect `bufT`. -/
def dlT8 : hailo_vdma_descriptors_list :=
  match hailo_vdma_program_descriptors_list hwT dlT 0 bufT true 0
      HAILO_VDMA_INTERRUPTS_DOMAIN_HOST false with
  | .ok r => r.1
  | .error _ => dlT

/-- The outcome (error, or count of descriptors programmed) of the chunk
programmer, computed from the list's page size alone: success never
depends on the backing array's contents. -/
def chunk_outcome (vdma_hw : hailo_vdma_hw) (a len page i mx ci : Nat) :
    Except Int Nat :=
  if mx - i < div_round_up len page then .error EFAULT_NEG
  else if vdma_hw.encode_desc_dma_address_range a (a + len) page ci
      = INVALID_VDMA_ADDRESS then .error EFAULT_NEG
  else .ok (div_round_up len page)

/-- The outcome of the chunk-programming loop, from the page size alone. -/
def chunks_loop_outcome (vdma_hw : hailo_vdma_hw) (page : Nat) :
    List (Nat × Nat) → Nat → Nat → Nat → Except Int Nat
  | [], _, _, _ => .ok 0
  | (a, len) :: rest, i, mx, ci =>
    match chunk_outcome vdma_hw a len page i mx ci with
    | .error e => .error e
    | .ok k =>
      match chunks_loop_outcome vdma_hw page rest (i + k) mx ci with
      | .error e => .error e
      | .ok t => .ok (k + t)

/-- The outcome of `hailo_vdma_program_descriptors_list`, from the list's
descriptor count and page size alone. -/
def descriptors_list_outcome (vdma_hw : hailo_vdma_hw) (count page : Nat)
    (buffer : hailo_vdma_mapped_transfer_buffer) (starting_desc ci : Nat)
    (should_bind : Bool) : Except Int Nat :=
  if should_bind then
    match chunks_loop_outcome vdma_hw page
        (sg_chunks buffer.sg_table buffer.offset buffer.size) starting_desc
        (starting_desc + count - 1) ci with
    | .error e => .error e
    | .ok t => if t = 0 then .error EFAULT_NEG else .ok t
  else .ok (div_round_up buffer.size page)

/-- The outcome of the buffer-programming loop of `launch_transfer`, from
the list's descriptor count and page size alone. -/
def buffers_loop_outcome (vdma_hw : hailo_vdma_hw) (count page : Nat) :
    List hailo_vdma_mapped_transfer_buffer → Nat → Nat → Bool →
    Except Int Nat
  | [], _, _, _ => .ok 0
  | b :: rest, starting_desc, ci, sb =>
    match descriptors_list_outcome vdma_hw count page b starting_desc ci sb with
    | .error e => .error e
    | .ok k =>
      match buffers_loop_outcome vdma_hw count page rest (starting_desc + k) ci sb with
      | .error e => .error e
      | .ok t => .ok (k + t)

theorem testBit_U32_MASK (i : Nat) : U32_MASK.testBit i = decide (i < 32) := by
  show Nat.testBit (2 ^ 32 - 1) i = decide (i < 32)
  rw [Nat.testBit_two_pow_sub_one]

theorem nat_ne_zero_iff_testBit (x : Nat) : x ≠ 0 ↔ ∃ i, x.testBit i = true := by
  constructor
  · intro h
    by_contra hc
    push_neg at hc
    refine h (Nat.eq_of_testBit_eq fun i => ?_)
    have hi := hc i
    cases hx : x.testBit i
    · simp [Nat.zero_testBit]
    · exact absurd hx hi
  · rintro ⟨i, hi⟩ h0
    rw [h0] at hi
    simp [Nat.zero_testBit] at hi

theorem nat_and_eq_left_iff (b e : Nat) :
    b &&& e = b ↔ ∀ i, b.testBit i = true → e.testBit i = true := by
  constructor
  · intro h i hb
    have hcongr := congrArg (fun x => x.testBit i) h
    simp only [Nat.testBit_and] at hcongr
    rw [hb] at hcongr
    simpa using hcongr
  · intro h
    refine Nat.eq_of_testBit_eq fun i => ?_
    simp only [Nat.testBit_and]
    cases hb : b.testBit i
    · simp
    · simp [h i hb]

/-- Claim C1: for every engine state and requested bitmap,
`hailo_vdma_engine_read_interrupts` returns exactly
`requested_bitmap & enabled_channels & interrupted_channels`, clears
exactly the returned bits from `interrupted_channels` (every other bit
keeps its value), and never returns a bit outside `enabled_channels`. -/
theorem read_interrupts_returns_and_clears_requested_enabled_pending
    (engine : hailo_vdma_engine) (requested_bitmap : Nat)
    (h32 : engine.interrupted_channels < U32_MOD) :
    (hailo_vdma_engine_read_interrupts engine requested_bitmap).1
      = requested_bitmap &&& engine.enabled_channels &&& engine.interrupted_channels
    ∧ (∀ i, ((hailo_vdma_engine_read_interrupts engine requested_bitmap).2).interrupted_channels.testBit i
        = (engine.interrupted_channels.testBit i &&
           !(hailo_vdma_engine_read_interrupts engine requested_bitmap).1.testBit i))
    ∧ (∀ i, (hailo_vdma_engine_read_interrupts engine requested_bitmap).1.testBit i = true
        → engine.enabled_channels.testBit i = true) := by
  refine ⟨rfl, ?_, ?_⟩
  · intro i
    rcases Nat.lt_or_ge i 32 with hi | hi
    · simp [hailo_vdma_engine_read_interrupts, testBit_U32_MASK, Nat.testBit_and,
        Nat.testBit_xor, hi]
    · have hbit : engine.interrupted_channels.testBit i = false :=
        Nat.testBit_lt_two_pow
          (lt_of_lt_of_le h32 (Nat.pow_le_pow_right (by norm_num) hi))
      simp [hailo_vdma_engine_read_interrupts, testBit_U32_MASK, Nat.testBit_and,
        Nat.testBit_xor, Nat.not_lt.mpr hi, hbit]
  · intro i h
    simp only [hailo_vdma_engine_read_interrupts, Nat.testBit_and,
      Bool.and_eq_true] at h
    exact h.1.2

/-- Witness for claim C1 at a concrete engine and requested bitmap. -/
theorem read_interrupts_returns_and_clears_requested_enabled_pending_witness :
    (⟨0, 5, 7, []⟩ : hailo_vdma_engine).interrupted_channels < U32_MOD
    ∧ (hailo_vdma_engine_read_interrupts ⟨0, 5, 7, []⟩ 3).1 = 3 &&& 5 &&& 7 :=
  ⟨by decide,
    (read_interrupts_returns_and_clears_requested_enabled_pending
      ⟨0, 5, 7, []⟩ 3 (by decide)).1⟩

/-- Claim C5: `hailo_vdma_engine_got_interrupt` returns true iff some
requested channel's bit is missing from `enabled_channels` or some
requested channel's bit is set in `interrupted_channels`; in particular,
with channel 1 disabled and only channel 0's interrupt pending,
`got_interrupt 0b11` returns true, and it is still true with no pending
bit at all (the disabled channel alone suffices). -/
theorem got_interrupt_iff_disabled_or_pending (engine : hailo_vdma_engine)
    (channels_bitmap : Nat) :
    ((hailo_vdma_engine_got_interrupt engine channels_bitmap).1 = true
      ↔ ((∃ i, channels_bitmap.testBit i = true
              ∧ engine.enabled_channels.testBit i = false)
        ∨ (∃ i, channels_bitmap.testBit i = true
              ∧ engine.interrupted_channels.testBit i = true)))
    ∧ (hailo_vdma_engine_got_interrupt ⟨0, 1, 1, []⟩ 3).1 = true
    ∧ (hailo_vdma_engine_got_interrupt ⟨0, 1, 0, []⟩ 3).1 = true := by
  refine ⟨?_, by decide, by decide⟩
  simp only [hailo_vdma_engine_got_interrupt, Bool.or_eq_true, decide_eq_true_eq]
  constructor
  · rintro (hdis | hint)
    · left
      have : ¬ (channels_bitmap &&& engine.enabled_channels = channels_bitmap) :=
        fun h => hdis h.symm
      rw [nat_and_eq_left_iff] at this
      push_neg at this
      obtain ⟨i, hb, he⟩ := this
      exact ⟨i, hb, Bool.not_eq_true _ ▸ he⟩
    · right
      have : channels_bitmap &&& engine.interrupted_channels ≠ 0 :=
        fun h => hint h.symm
      rw [nat_ne_zero_iff_testBit] at this
      obtain ⟨i, hi⟩ := this
      simp only [Nat.testBit_and, Bool.and_eq_true] at hi
      exact ⟨i, hi.1, hi.2⟩
  · rintro (⟨i, hb, he⟩ | ⟨i, hb, hint⟩)
    · left
      intro h
      have := (nat_and_eq_left_iff channels_bitmap engine.enabled_channels).mp h.symm i hb
      rw [he] at this
      exact Bool.false_ne_true this
    · right
      intro h
      have : (channels_bitmap &&& engine.interrupted_channels).testBit i = true := by
        simp [Nat.testBit_and, hb, hint]
      rw [← h] at this
      simp [Nat.zero_testBit] at this

/-- Claim C6: with `desc_count` a power of two the mask reduces any index
modulo `desc_count` (so wraparound subtraction of `desc_count` is
absorbed), and for any `desc_count` (power of two or not) the mask is the
identity on indices below `desc_count`. -/
theorem desc_count_mask_mod_and_identity (desc_count i : Nat) :
    ((∃ k, desc_count = 2 ^ k) →
      (i &&& desc_count_mask desc_count = i % desc_count
        ∧ (desc_count ≤ i →
            i &&& desc_count_mask desc_count
              = (i - desc_count) &&& desc_count_mask desc_count)))
    ∧ (i < desc_count → i &&& desc_count_mask desc_count = i) := by
  constructor
  · rintro ⟨k, rfl⟩
    have hm : desc_count_mask (2 ^ k) = 2 ^ k - 1 := by
      unfold desc_count_mask
      rw [Nat.clog_pow 2 k (by norm_num)]
    refine ⟨by rw [hm]; exact Nat.and_pow_two_sub_one_eq_mod i k, fun hle => ?_⟩
    rw [hm, Nat.and_pow_two_sub_one_eq_mod, Nat.and_pow_two_sub_one_eq_mod]
    exact Nat.mod_eq_sub_mod hle
  · intro hlt
    unfold desc_count_mask
    rw [Nat.and_pow_two_sub_one_eq_mod]
    exact Nat.mod_eq_of_lt
      (lt_of_lt_of_le hlt (Nat.le_pow_clog (by norm_num) _))

/-- Witness for claim C6 at `desc_count = 16` (a power of two) with
`i = 35` (wrapping) and `i = 10` (below the count). -/
theorem desc_count_mask_mod_and_identity_witness :
    ((35 : Nat) &&& desc_count_mask 16 = 35 % 16
      ∧ (35 : Nat) &&& desc_count_mask 16 = (35 - 16) &&& desc_count_mask 16)
    ∧ (10 : Nat) &&& desc_count_mask 16 = 10 :=
  ⟨⟨((desc_count_mask_mod_and_identity 16 35).1 ⟨4, by norm_num⟩).1,
    ((desc_count_mask_mod_and_identity 16 35).1 ⟨4, by norm_num⟩).2 (by norm_num)⟩,
    (desc_count_mask_mod_and_identity 16 10).2 (by norm_num)⟩

/-- Claim C10: `hailo_vdma_engine_got_interrupt` modifies no engine state
at all; `hailo_vdma_engine_read_interrupts` modifies no engine field
other than `interrupted_channels` (`enabled_channels`, the channels array
and the engine index are unchanged); and `read_interrupts` with a zero
requested bitmap returns 0 and leaves `interrupted_channels`
unchanged. -/
theorem engine_interrupt_queries_frame (engine : hailo_vdma_engine)
    (bitmap : Nat) (h32 : engine.interrupted_channels < U32_MOD) :
    (hailo_vdma_engine_got_interrupt engine bitmap).2 = engine
    ∧ (hailo_vdma_engine_read_interrupts engine bitmap).2.enabled_channels
        = engine.enabled_channels
    ∧ (hailo_vdma_engine_read_interrupts engine bitmap).2.channels
        = engine.channels
    ∧ (hailo_vdma_engine_read_interrupts engine bitmap).2.index = engine.index
    ∧ (hailo_vdma_engine_read_interrupts engine 0).1 = 0
    ∧ (hailo_vdma_engine_read_interrupts engine 0).2 = engine := by
  refine ⟨rfl, rfl, rfl, rfl, by simp [hailo_vdma_engine_read_interrupts], ?_⟩
  have hkeep : engine.interrupted_channels
      &&& (U32_MASK ^^^ (0 &&& engine.enabled_channels &&& engine.interrupted_channels))
      = engine.interrupted_channels := by
    have h1 : (0 : Nat) &&& engine.enabled_channels &&& engine.interrupted_channels = 0 := by
      simp
    rw [h1, Nat.xor_zero]
    show engine.interrupted_channels &&& (2 ^ 32 - 1) = engine.interrupted_channels
    rw [Nat.and_pow_two_sub_one_eq_mod]
    exact Nat.mod_eq_of_lt h32
  simp only [hailo_vdma_engine_read_interrupts, hkeep]

/-- Witness for claim C10 at a concrete engine and bitmap. -/
theorem engine_interrupt_queries_frame_witness :
    (⟨1, 5, 7, []⟩ : hailo_vdma_engine).interrupted_channels < U32_MOD
    ∧ (hailo_vdma_engine_read_interrupts ⟨1, 5, 7, []⟩ 0).1 = 0 :=
  ⟨by decide, (engine_interrupt_queries_frame ⟨1, 5, 7, []⟩ 3 (by decide)).2.2.2.2.1⟩

/-- Claim C9: `hailo_vdma_program_descriptors_in_chunk` fails exactly when
the chunk requires more descriptors than fit between `desc_index` and
`max_desc_index`, or when the Codec returns the invalid sentinel
(`INVALID_VDMA_ADDRESS`, zero) for the chunk's address range; and every
returned error value is negative. -/
theorem program_descriptors_in_chunk_error_cases (vdma_hw : hailo_vdma_hw)
    (chunk_addr chunk_size : Nat) (dl : hailo_vdma_descriptors_list)
    (desc_index max_desc_index channel_index data_id : Nat) :
    ((hailo_vdma_program_descriptors_in_chunk vdma_hw chunk_addr chunk_size dl
        desc_index max_desc_index channel_index data_id).isOk = false
      ↔ (max_desc_index - desc_index < div_round_up chunk_size dl.desc_page_size
        ∨ vdma_hw.encode_desc_dma_address_range chunk_addr (chunk_addr + chunk_size)
            dl.desc_page_size channel_index = INVALID_VDMA_ADDRESS))
    ∧ (∀ e, hailo_vdma_program_descriptors_in_chunk vdma_hw chunk_addr chunk_size dl
        desc_index max_desc_index channel_index data_id = .error e → e < 0) := by
  constructor
  · unfold hailo_vdma_program_descriptors_in_chunk
    by_cases h1 : max_desc_index - desc_index
        < div_round_up chunk_size dl.desc_page_size
    · simp [h1, Except.isOk, Except.toBool]
    · by_cases h2 : vdma_hw.encode_desc_dma_address_range chunk_addr
          (chunk_addr + chunk_size) dl.desc_page_size channel_index
          = INVALID_VDMA_ADDRESS
      · simp [h1, h2, Except.isOk, Except.toBool]
      · simp [h1, h2, Except.isOk, Except.toBool]
  · intro e he
    unfold hailo_vdma_program_descriptors_in_chunk at he
    by_cases h1 : max_desc_index - desc_index
        < div_round_up chunk_size dl.desc_page_size
    · simp only [h1, if_true] at he
      cases he
      decide
    · by_cases h2 : vdma_hw.encode_desc_dma_address_range chunk_addr
          (chunk_addr + chunk_size) dl.desc_page_size channel_index
          = INVALID_VDMA_ADDRESS
      · simp only [h1, h2, if_true, if_false] at he
        cases he
        decide
      · simp [h1, h2] at he

/-- Claim C2: when `hailo_vdma_launch_transfer` fails (descriptor
programming failed, or the Ongoing Transfer Queue is full) it performs no
mutation of hardware-visible state: the channel — in particular its
available-counter `num_avail`, the mirrored hardware register and the
Ongoing Transfer Queue — and the descriptors list are returned exactly as
passed in; they are updated only after descriptor programming fully
succeeds. -/
theorem launch_transfer_no_mutation_on_failure (vdma_hw : hailo_vdma_hw)
    (channel : hailo_vdma_channel) (dl : hailo_vdma_descriptors_list)
    (starting_desc : Nat) (buffers : List hailo_vdma_mapped_transfer_buffer)
    (should_bind : Bool) (first_interrupts_domain last_desc_interrupts : Nat)
    (is_debug : Bool) (e : Int)
    (h : (hailo_vdma_launch_transfer vdma_hw channel dl starting_desc buffers
        should_bind first_interrupts_domain last_desc_interrupts is_debug).1
      = .error e) :
    (hailo_vdma_launch_transfer vdma_hw channel dl starting_desc buffers
        should_bind first_interrupts_domain last_desc_interrupts is_debug).2.1
      = channel
    ∧ (hailo_vdma_launch_transfer vdma_hw channel dl starting_desc buffers
        should_bind first_interrupts_domain last_desc_interrupts is_debug).2.2
      = dl
    ∧ (hailo_vdma_launch_transfer vdma_hw channel dl starting_desc buffers
        should_bind first_interrupts_domain last_desc_interrupts is_debug).2.1.state.num_avail
      = channel.state.num_avail
    ∧ (hailo_vdma_launch_transfer vdma_hw channel dl starting_desc buffers
        should_bind first_interrupts_domain last_desc_interrupts is_debug).2.1.host_regs_num_avail
      = channel.host_regs_num_avail
    ∧ (hailo_vdma_launch_transfer vdma_hw channel dl starting_desc buffers
        should_bind first_interrupts_domain last_desc_interrupts is_debug).2.1.ongoing_transfers
      = channel.ongoing_transfers := by
  unfold hailo_vdma_launch_transfer at h ⊢
  by_cases hfull : ongoing_transfers_full channel.ongoing_transfers
  · simp [hfull]
  · cases hprog : program_buffers_loop vdma_hw buffers dl starting_desc
        channel.index last_desc_interrupts should_bind is_debug with
    | error e' => simp [hfull, hprog]
    | ok r =>
      rw [if_neg hfull] at h
      rw [hprog] at h
      simp at h

/-- Witness for claim C2: launching an oversized buffer on the tiny list
fails with `-EFAULT` and leaves the channel untouched. -/
theorem launch_transfer_no_mutation_on_failure_witness :
    (hailo_vdma_launch_transfer hwT chT dlS 0 [bufBig] true
        HAILO_VDMA_INTERRUPTS_DOMAIN_NONE HAILO_VDMA_INTERRUPTS_DOMAIN_NONE
        false).1 = .error EFAULT_NEG
    ∧ (hailo_vdma_launch_transfer hwT chT dlS 0 [bufBig] true
        HAILO_VDMA_INTERRUPTS_DOMAIN_NONE HAILO_VDMA_INTERRUPTS_DOMAIN_NONE
        false).2.1 = chT :=
  ⟨rfl,
    (launch_transfer_no_mutation_on_failure hwT chT dlS 0 [bufBig] true
      HAILO_VDMA_INTERRUPTS_DOMAIN_NONE HAILO_VDMA_INTERRUPTS_DOMAIN_NONE
      false EFAULT_NEG rfl).1⟩

/-- Claim C7: on success, programming a chunk of `chunk_size` bytes writes
exactly `div_round_up chunk_size desc_page_size` descriptors — the trace
`chunk_writes` holds, for each `j`, a store to ring slot
`desc_ring_index dl (desc_index + j)` of a descriptor sized at the page
size except the last, which takes the residue (`chunk_descriptor`) — and
concretely, launching one 10000-byte buffer at offset 0 on a circular
16-descriptor, 4096-byte-page list yields return value 3, descriptors of
sizes 4096, 4096, 1808 at indices 0, 1, 2, no other descriptor written,
and the channel's available-counter advanced by exactly 3. -/
theorem program_descriptors_in_chunk_writes (vdma_hw : hailo_vdma_hw)
    (chunk_addr chunk_size : Nat) (dl : hailo_vdma_descriptors_list)
    (desc_index max_desc_index channel_index data_id : Nat) :
    ((hailo_vdma_program_descriptors_in_chunk vdma_hw chunk_addr chunk_size dl
        desc_index max_desc_index channel_index data_id).isOk = true →
      hailo_vdma_program_descriptors_in_chunk vdma_hw chunk_addr chunk_size dl
          desc_index max_desc_index channel_index data_id
        = .ok (apply_writes dl (chunk_writes dl
              (vdma_hw.encode_desc_dma_address_range chunk_addr
                (chunk_addr + chunk_size) dl.desc_page_size channel_index)
              chunk_size desc_index data_id),
            chunk_writes dl
              (vdma_hw.encode_desc_dma_address_range chunk_addr
                (chunk_addr + chunk_size) dl.desc_page_size channel_index)
              chunk_size desc_index data_id,
            div_round_up chunk_size dl.desc_page_size))
    ∧ (chunk_writes dl
        (vdma_hw.encode_desc_dma_address_range chunk_addr
          (chunk_addr + chunk_size) dl.desc_page_size channel_index)
        chunk_size desc_index data_id).length
      = div_round_up chunk_size dl.desc_page_size
    ∧ (∀ j, j < div_round_up chunk_size dl.desc_page_size →
        (chunk_writes dl
          (vdma_hw.encode_desc_dma_address_range chunk_addr
            (chunk_addr + chunk_size) dl.desc_page_size channel_index)
          chunk_size desc_index data_id).get? j
        = some (desc_ring_index dl (desc_index + j),
            chunk_descriptor
              (vdma_hw.encode_desc_dma_address_range chunk_addr
                (chunk_addr + chunk_size) dl.desc_page_size channel_index)
              chunk_size dl.desc_page_size data_id j
              (div_round_up chunk_size dl.desc_page_size)))
    ∧ (hailo_vdma_launch_transfer hwT chT dlT 0 [bufT] true
        HAILO_VDMA_INTERRUPTS_DOMAIN_NONE HAILO_VDMA_INTERRUPTS_DOMAIN_NONE
        false).1 = .ok 3
    ∧ (hailo_vdma_launch_transfer hwT chT dlT 0 [bufT] true
        HAILO_VDMA_INTERRUPTS_DOMAIN_NONE HAILO_VDMA_INTERRUPTS_DOMAIN_NONE
        false).2.1.state.num_avail = chT.state.num_avail + 3
    ∧ ((hailo_vdma_launch_transfer hwT chT dlT 0 [bufT] true
        HAILO_VDMA_INTERRUPTS_DOMAIN_NONE HAILO_VDMA_INTERRUPTS_DOMAIN_NONE
        false).2.2.desc_list.getD 0 default).size = 4096
    ∧ ((hailo_vdma_launch_transfer hwT chT dlT 0 [bufT] true
        HAILO_VDMA_INTERRUPTS_DOMAIN_NONE HAILO_VDMA_INTERRUPTS_DOMAIN_NONE
        false).2.2.desc_list.getD 1 default).size = 4096
    ∧ ((hailo_vdma_launch_transfer hwT chT dlT 0 [bufT] true
        HAILO_VDMA_INTERRUPTS_DOMAIN_NONE HAILO_VDMA_INTERRUPTS_DOMAIN_NONE
        false).2.2.desc_list.getD 2 default).size = 1808
    ∧ (hailo_vdma_launch_transfer hwT chT dlT 0 [bufT] true
        HAILO_VDMA_INTERRUPTS_DOMAIN_NONE HAILO_VDMA_INTERRUPTS_DOMAIN_NONE
        false).2.2.desc_list.drop 3 = List.replicate 13 default := by
  refine ⟨?_, ?_, ?_, rfl, rfl, rfl, rfl, rfl, rfl⟩
  · intro hok
    unfold hailo_vdma_program_descriptors_in_chunk at hok ⊢
    by_cases h1 : max_desc_index - desc_index
        < div_round_up chunk_size dl.desc_page_size
    · simp [h1, Except.isOk, Except.toBool] at hok
    · by_cases h2 : vdma_hw.encode_desc_dma_address_range chunk_addr
          (chunk_addr + chunk_size) dl.desc_page_size channel_index
          = INVALID_VDMA_ADDRESS
      · simp [h1, h2, Except.isOk, Except.toBool] at hok
      · simp [h1, h2]
  · unfold chunk_writes
    rw [List.length_map, List.length_range]
  · intro j hj
    unfold chunk_writes
    rw [List.get?_map, List.get?_range hj]
    rfl

/-- Witness for claim C7: the chunk programmer applied to a 3-byte chunk
on the tiny list succeeds, so the success characterization applies, as
does the per-store description at j = 0. -/
theorem program_descriptors_in_chunk_writes_witness :
    (hailo_vdma_program_descriptors_in_chunk hwT 0 3 dlS 0 1 0 0).isOk = true
    ∧ hailo_vdma_program_descriptors_in_chunk hwT 0 3 dlS 0 1 0 0
      = .ok (apply_writes dlS (chunk_writes dlS
            (hwT.encode_desc_dma_address_range 0 (0 + 3) dlS.desc_page_size 0) 3 0 0),
          chunk_writes dlS
            (hwT.encode_desc_dma_address_range 0 (0 + 3) dlS.desc_page_size 0) 3 0 0,
          div_round_up 3 dlS.desc_page_size)
    ∧ (0 : Nat) < div_round_up 3 dlS.desc_page_size
    ∧ (chunk_writes dlS
        (hwT.encode_desc_dma_address_range 0 (0 + 3) dlS.desc_page_size 0) 3 0 0).get? 0
      = some (desc_ring_index dlS (0 + 0),
          chunk_descriptor (hwT.encode_desc_dma_address_range 0 (0 + 3) dlS.desc_page_size 0)
            3 dlS.desc_page_size 0 0 (div_round_up 3 dlS.desc_page_size)) :=
  ⟨rfl,
    (program_descriptors_in_chunk_writes hwT 0 3 dlS 0 1 0 0).1 rfl,
    by decide,
    (program_descriptors_in_chunk_writes hwT 0 3 dlS 0 1 0 0).2.2.1 0 (by decide)⟩

/-- Witness for claim C9: a 100-byte chunk needs 25 descriptors but only
one fits, so the call fails with the negative `-EFAULT`. -/
theorem program_descriptors_in_chunk_error_cases_witness :
    hailo_vdma_program_descriptors_in_chunk hwT 0 100 dlS 0 1 0 0
      = .error EFAULT_NEG
    ∧ EFAULT_NEG < 0 :=
  ⟨rfl, (program_descriptors_in_chunk_error_cases hwT 0 100 dlS 0 1 0 0).2
    EFAULT_NEG rfl⟩

theorem ongoing_transfers_content_pop (q : hailo_ongoing_transfers_list)
    (h : q.head < q.tail) :
    ongoing_transfers_content q
      = ongoing_transfers_peek q
        :: ongoing_transfers_content (ongoing_transfers_pop q) := by
  unfold ongoing_transfers_content ongoing_transfers_peek ongoing_transfers_pop
  obtain ⟨n, hn⟩ : ∃ n, q.tail - q.head = n + 1 := ⟨q.tail - q.head - 1, by omega⟩
  have hn' : q.tail - (q.head + 1) = n := by omega
  simp only [hn, hn']
  rw [List.range_succ_eq_map, List.map_cons, List.map_map]
  refine congrArg₂ _ (by simp) ?_
  refine List.map_congr_left fun i _ => ?_
  show q.transfers.getD ((q.head + (i + 1)) % HAILO_VDMA_MAX_ONGOING_TRANSFERS) default
    = q.transfers.getD ((q.head + 1 + i) % HAILO_VDMA_MAX_ONGOING_TRANSFERS) default
  rw [show q.head + (i + 1) = q.head + 1 + i from by omega]

theorem drain_completed_loop_fifo (snp hnp mask : Nat) :
    ∀ fuel q, fuel = q.tail - q.head →
      (drain_completed_loop snp hnp mask fuel q).2
        = (ongoing_transfers_content q).take
            (drain_completed_loop snp hnp mask fuel q).2.length
      ∧ ongoing_transfers_content (drain_completed_loop snp hnp mask fuel q).1
        = (ongoing_transfers_content q).drop
            (drain_completed_loop snp hnp mask fuel q).2.length := by
  intro fuel
  induction fuel with
  | zero => intro q _; simp [drain_completed_loop]
  | succ n ih =>
    intro q hq
    unfold drain_completed_loop
    by_cases hht : q.head = q.tail
    · simp [hht]
    · have hlt : q.head < q.tail := by omega
      by_cases hc : is_transfer_complete snp hnp
          (ongoing_transfers_peek q).last_desc mask
      · simp only [if_neg hht, if_pos hc]
        have hpop : n = (ongoing_transfers_pop q).tail
            - (ongoing_transfers_pop q).head := by
          show n = q.tail - (q.head + 1)
          omega
        obtain ⟨h1, h2⟩ := ih (ongoing_transfers_pop q) hpop
        rw [ongoing_transfers_content_pop q hlt]
        constructor
        · rw [List.length_cons, List.take_succ_cons]
          exact congrArg _ h1
        · rw [List.length_cons, List.drop_succ_cons]
          exact h2
      · simp [if_neg hht, hc]

theorem list_filterMap_if {α β : Type} (p : α → Bool) (g : α → β) :
    ∀ l : List α,
      (l.filterMap fun a => if p a then some (g a) else none)
        = (l.filter p).map g := by
  intro l
  induction l with
  | nil => rfl
  | cons a t ih =>
    by_cases hp : p a <;>
      simp [List.filterMap_cons, List.filter_cons, hp, ih]

/-- Claim C4: completion reporting never reorders transfers of one
channel: `hailo_vdma_engine_fill_irq_data` reports, for each signaled
channel, exactly what the per-channel drain pops, and the drain pops
exactly a prefix — in submission order — of the channel's Ongoing
Transfer Queue, leaving the remaining suffix queued.  This holds for
every queue content, so in particular when descriptor ranges overlap in
ring position after wraparound: a later-submitted transfer is never
reported before an earlier one. -/
theorem fill_irq_data_pops_fifo (engine : hailo_vdma_engine)
    (irq_channels_bitmap : Nat) :
    (hailo_vdma_engine_fill_irq_data engine irq_channels_bitmap).2
      = (engine.channels.filter
            (fun ch => irq_channels_bitmap.testBit ch.index)).map
          (fun ch => (ch.index, (hailo_vdma_channel_drain_completed ch).2))
    ∧ (hailo_vdma_engine_fill_irq_data engine irq_channels_bitmap).1.channels
      = engine.channels.map (fun ch =>
          if irq_channels_bitmap.testBit ch.index
          then (hailo_vdma_channel_drain_completed ch).1 else ch)
    ∧ ∀ ch ∈ engine.channels,
        (hailo_vdma_channel_drain_completed ch).2
          = (ongoing_transfers_content ch.ongoing_transfers).take
              (hailo_vdma_channel_drain_completed ch).2.length
        ∧ ongoing_transfers_content
            (hailo_vdma_channel_drain_completed ch).1.ongoing_transfers
          = (ongoing_transfers_content ch.ongoing_transfers).drop
              (hailo_vdma_channel_drain_completed ch).2.length := by
  refine ⟨?_, ?_, ?_⟩
  · show List.filterMap Prod.snd (engine.channels.map _) = _
    rw [List.filterMap_map]
    rw [← list_filterMap_if (fun ch => irq_channels_bitmap.testBit ch.index)
      (fun ch => (ch.index, (hailo_vdma_channel_drain_completed ch).2))]
    refine congrArg (fun g => List.filterMap g engine.channels)
      (funext fun ch => ?_)
    by_cases hp : irq_channels_bitmap.testBit ch.index <;> simp [hp]
  · show List.map Prod.fst (engine.channels.map _) = _
    rw [List.map_map]
    refine congrArg (fun g => List.map g engine.channels)
      (funext fun ch => ?_)
    by_cases hp : irq_channels_bitmap.testBit ch.index <;> simp [hp]
  · intro ch _
    have h := drain_completed_loop_fifo ch.state.num_proc ch.host_regs_num_proc
      ch.state.desc_count_mask (ongoing_transfers_size ch.ongoing_transfers)
      ch.ongoing_transfers rfl
    exact h

/-- Test fixture: a channel with two queued transfers (terminal indices
0 and 5) whose hardware processed counter has advanced past the first
transfer only. -/
def chD : hailo_vdma_channel :=
  { index := 0
    host_regs_num_avail := 6
    host_regs_num_proc := 1
    state := { num_avail := 6, num_proc := 0, desc_count_mask := 15 }
    ongoing_transfers :=
      { head := 0
        tail := 2
        transfers := [⟨0, 1, false⟩, ⟨5, 1, false⟩] } }

/-- Witness for claim C4 at a concrete one-channel engine. -/
theorem fill_irq_data_pops_fifo_witness :
    chD ∈ (⟨0, 1, 1, [chD]⟩ : hailo_vdma_engine).channels
    ∧ ((hailo_vdma_channel_drain_completed chD).2
        = (ongoing_transfers_content chD.ongoing_transfers).take
            (hailo_vdma_channel_drain_completed chD).2.length
      ∧ ongoing_transfers_content
          (hailo_vdma_channel_drain_completed chD).1.ongoing_transfers
        = (ongoing_transfers_content chD.ongoing_transfers).drop
            (hailo_vdma_channel_drain_completed chD).2.length) :=
  ⟨List.mem_cons_self chD [],
    (fill_irq_data_pops_fifo ⟨0, 1, 1, [chD]⟩ 1).2.2 chD
      (List.mem_cons_self chD [])⟩

theorem write_descriptor_shape (dl : hailo_vdma_descriptors_list) (i : Nat)
    (d : hailo_vdma_descriptor) :
    desc_list_shape (write_descriptor dl i d) = desc_list_shape dl
    ∧ (write_descriptor dl i d).desc_list.length = dl.desc_list.length := by
  refine ⟨rfl, ?_⟩
  show (dl.desc_list.set i d).length = dl.desc_list.length
  simp

theorem apply_writes_shape :
    ∀ (ws : List (Nat × hailo_vdma_descriptor)) (dl : hailo_vdma_descriptors_list),
      desc_list_shape (apply_writes dl ws) = desc_list_shape dl
      ∧ (apply_writes dl ws).desc_list.length = dl.desc_list.length := by
  intro ws
  induction ws with
  | nil => intro dl; exact ⟨rfl, rfl⟩
  | cons w t ih =>
    intro dl
    have hw := write_descriptor_shape dl w.1 w.2
    have ht := ih (write_descriptor dl w.1 w.2)
    exact ⟨ht.1.trans hw.1, ht.2.trans hw.2⟩

theorem program_descriptors_in_chunk_preserve (vdma_hw : hailo_vdma_hw)
    (a len : Nat) (dl : hailo_vdma_descriptors_list) (i mx ci did : Nat)
    (dl' : hailo_vdma_descriptors_list)
    (ws : List (Nat × hailo_vdma_descriptor)) (k : Nat)
    (h : hailo_vdma_program_descriptors_in_chunk vdma_hw a len dl i mx ci did
      = .ok (dl', ws, k)) :
    desc_list_shape dl' = desc_list_shape dl
    ∧ dl'.desc_list.length = dl.desc_list.length := by
  unfold hailo_vdma_program_descriptors_in_chunk at h
  by_cases h1 : mx - i < div_round_up len dl.desc_page_size
  · simp [h1] at h
  · by_cases h2 : vdma_hw.encode_desc_dma_address_range a (a + len)
        dl.desc_page_size ci = INVALID_VDMA_ADDRESS
    · simp [h1, h2] at h
    · simp [h1, h2] at h
      obtain ⟨hdl, -, -⟩ := h
      subst hdl
      exact apply_writes_shape _ dl

theorem program_descriptors_in_chunk_outcome (vdma_hw : hailo_vdma_hw)
    (a len : Nat) (dl : hailo_vdma_descriptors_list) (i mx ci did : Nat) :
    Except.map (fun r => r.2.2)
      (hailo_vdma_program_descriptors_in_chunk vdma_hw a len dl i mx ci did)
      = chunk_outcome vdma_hw a len dl.desc_page_size i mx ci := by
  unfold hailo_vdma_program_descriptors_in_chunk chunk_outcome
  by_cases h1 : mx - i < div_round_up len dl.desc_page_size
  · simp [h1, Except.map]
  · by_cases h2 : vdma_hw.encode_desc_dma_address_range a (a + len)
        dl.desc_page_size ci = INVALID_VDMA_ADDRESS
    · simp [h1, h2, Except.map]
    · simp [h1, h2, Except.map]

theorem program_chunks_loop_preserve (vdma_hw : hailo_vdma_hw) :
    ∀ (chunks : List (Nat × Nat)) (dl : hailo_vdma_descriptors_list)
      (i mx ci did : Nat) (dl' : hailo_vdma_descriptors_list) (t : Nat),
      program_chunks_loop vdma_hw chunks dl i mx ci did = .ok (dl', t) →
      desc_list_shape dl' = desc_list_shape dl
      ∧ dl'.desc_list.length = dl.desc_list.length := by
  intro chunks
  induction chunks with
  | nil =>
    intro dl i mx ci did dl' t h
    simp [program_chunks_loop] at h
    obtain ⟨hdl, -⟩ := h
    subst hdl
    exact ⟨rfl, rfl⟩
  | cons c rest ih =>
    intro dl i mx ci did dl' t h
    obtain ⟨a, len⟩ := c
    unfold program_chunks_loop at h
    cases h1 : hailo_vdma_program_descriptors_in_chunk vdma_hw a len dl i mx
        ci did with
    | error e => rw [h1] at h; simp at h
    | ok r =>
      rw [h1] at h
      obtain ⟨dl1, ws1, k1⟩ := r
      dsimp only at h
      cases h2 : program_chunks_loop vdma_hw rest dl1 (i + k1) mx ci did with
      | error e => rw [h2] at h; simp at h
      | ok r2 =>
        rw [h2] at h
        obtain ⟨dl2, t2⟩ := r2
        simp at h
        obtain ⟨hdl, -⟩ := h
        subst hdl
        have hc := program_descriptors_in_chunk_preserve vdma_hw a len dl i mx
          ci did dl1 ws1 k1 h1
        have hr := ih dl1 (i + k1) mx ci did dl2 t2 h2
        exact ⟨hr.1.trans hc.1, hr.2.trans hc.2⟩

theorem program_chunks_loop_outcome (vdma_hw : hailo_vdma_hw) :
    ∀ (chunks : List (Nat × Nat)) (dl : hailo_vdma_descriptors_list)
      (i mx ci did : Nat),
      Except.map (fun r => r.2)
        (program_chunks_loop vdma_hw chunks dl i mx ci did)
        = chunks_loop_outcome vdma_hw dl.desc_page_size chunks i mx ci := by
  intro chunks
  induction chunks with
  | nil => intro dl i mx ci did; rfl
  | cons c rest ih =>
    intro dl i mx ci did
    obtain ⟨a, len⟩ := c
    have hc := program_descriptors_in_chunk_outcome vdma_hw a len dl i mx ci did
    unfold program_chunks_loop chunks_loop_outcome
    cases h1 : hailo_vdma_program_descriptors_in_chunk vdma_hw a len dl i mx
        ci did with
    | error e =>
      rw [h1] at hc
      rw [← hc]
      simp [Except.map]
    | ok r =>
      rw [h1] at hc
      obtain ⟨dl1, ws1, k1⟩ := r
      have hpage : dl1.desc_page_size = dl.desc_page_size :=
        congrArg (fun s => s.2.2.1)
          (program_descriptors_in_chunk_preserve vdma_hw a len dl i mx ci did
            dl1 ws1 k1 h1).1
      have hrest := ih dl1 (i + k1) mx ci did
      rw [hpage] at hrest
      rw [← hc]
      simp only [Except.map]
      rw [← hrest]
      cases h2 : program_chunks_loop vdma_hw rest dl1 (i + k1) mx ci did with
      | error e => simp [Except.map]
      | ok r2 => simp [Except.map]

theorem program_descriptors_list_preserve (vdma_hw : hailo_vdma_hw)
    (dl : hailo_vdma_descriptors_list) (s : Nat)
    (b : hailo_vdma_mapped_transfer_buffer) (sb : Bool) (ci lid : Nat)
    (dbg : Bool) (dl' : hailo_vdma_descriptors_list) (k : Nat)
    (h : hailo_vdma_program_descriptors_list vdma_hw dl s b sb ci lid dbg
      = .ok (dl', k)) :
    desc_list_shape dl' = desc_list_shape dl
    ∧ dl'.desc_list.length = dl.desc_list.length := by
  unfold hailo_vdma_program_descriptors_list at h
  cases sb with
  | false =>
    rw [if_neg (by simp)] at h
    unfold program_last_desc at h
    simp at h
    obtain ⟨hdl, -⟩ := h
    subst hdl
    exact write_descriptor_shape dl _ _
  | true =>
    rw [if_pos rfl] at h
    unfold bind_and_program_descriptors_list at h
    dsimp only at h
    cases h1 : program_chunks_loop vdma_hw
        (sg_chunks b.sg_table b.offset b.size) dl s (s + dl.desc_count - 1)
        ci vdma_hw.ddr_data_id with
    | error e => rw [h1] at h; simp at h
    | ok r =>
      rw [h1] at h
      obtain ⟨dl1, t1⟩ := r
      dsimp only at h
      by_cases h0 : t1 = 0
      · simp [h0] at h
      · simp [h0] at h
        obtain ⟨hdl, -⟩ := h
        subst hdl
        have hp := program_chunks_loop_preserve vdma_hw _ dl s
          (s + dl.desc_count - 1) ci vdma_hw.ddr_data_id dl1 t1 h1
        exact ⟨(write_descriptor_shape dl1 _ _).1.trans hp.1,
          (write_descriptor_shape dl1 _ _).2.trans hp.2⟩

theorem program_descriptors_list_outcome_eq (vdma_hw : hailo_vdma_hw)
    (dl : hailo_vdma_descriptors_list) (s : Nat)
    (b : hailo_vdma_mapped_transfer_buffer) (sb : Bool) (ci lid : Nat)
    (dbg : Bool) :
    Except.map (fun r => r.2)
      (hailo_vdma_program_descriptors_list vdma_hw dl s b sb ci lid dbg)
      = descriptors_list_outcome vdma_hw dl.desc_count dl.desc_page_size b s
          ci sb := by
  unfold hailo_vdma_program_descriptors_list descriptors_list_outcome
  cases sb with
  | false =>
    rw [if_neg (by simp), if_neg (by simp)]
    unfold program_last_desc
    simp [Except.map]
  | true =>
    rw [if_pos rfl, if_pos rfl]
    unfold bind_and_program_descriptors_list
    dsimp only
    have hl := program_chunks_loop_outcome vdma_hw
      (sg_chunks b.sg_table b.offset b.size) dl s (s + dl.desc_count - 1) ci
      vdma_hw.ddr_data_id
    cases h1 : program_chunks_loop vdma_hw
        (sg_chunks b.sg_table b.offset b.size) dl s (s + dl.desc_count - 1)
        ci vdma_hw.ddr_data_id with
    | error e =>
      rw [h1] at hl
      simp only [Except.map] at hl
      rw [← hl]
      simp [Except.map]
    | ok r =>
      obtain ⟨dl1, t1⟩ := r
      rw [h1] at hl
      simp only [Except.map] at hl
      rw [← hl]
      by_cases h0 : t1 = 0 <;> simp [h0, Except.map]

theorem program_buffers_loop_preserve (vdma_hw : hailo_vdma_hw) :
    ∀ (buffers : List hailo_vdma_mapped_transfer_buffer)
      (dl : hailo_vdma_descriptors_list) (s ci lid : Nat) (sb dbg : Bool)
      (dl' : hailo_vdma_descriptors_list) (t : Nat),
      program_buffers_loop vdma_hw buffers dl s ci lid sb dbg = .ok (dl', t) →
      desc_list_shape dl' = desc_list_shape dl
      ∧ dl'.desc_list.length = dl.desc_list.length := by
  intro buffers
  induction buffers with
  | nil =>
    intro dl s ci lid sb dbg dl' t h
    simp [program_buffers_loop] at h
    obtain ⟨hdl, -⟩ := h
    subst hdl
    exact ⟨rfl, rfl⟩
  | cons b rest ih =>
    intro dl s ci lid sb dbg dl' t h
    unfold program_buffers_loop at h
    cases h1 : hailo_vdma_program_descriptors_list vdma_hw dl s b sb ci
        (if rest.isEmpty then lid else HAILO_VDMA_INTERRUPTS_DOMAIN_NONE)
        dbg with
    | error e => rw [h1] at h; simp at h
    | ok r =>
      rw [h1] at h
      obtain ⟨dl1, k1⟩ := r
      dsimp only at h
      cases h2 : program_buffers_loop vdma_hw rest dl1 (s + k1) ci lid sb dbg with
      | error e => rw [h2] at h; simp at h
      | ok r2 =>
        rw [h2] at h
        obtain ⟨dl2, t2⟩ := r2
        simp at h
        obtain ⟨hdl, -⟩ := h
        subst hdl
        have hp := program_descriptors_list_preserve vdma_hw dl s b sb ci
          (if rest.isEmpty then lid else HAILO_VDMA_INTERRUPTS_DOMAIN_NONE)
          dbg dl1 k1 h1
        have hr := ih dl1 (s + k1) ci lid sb dbg dl2 t2 h2
        exact ⟨hr.1.trans hp.1, hr.2.trans hp.2⟩

theorem program_buffers_loop_outcome_eq (vdma_hw : hailo_vdma_hw) :
    ∀ (buffers : List hailo_vdma_mapped_transfer_buffer)
      (dl : hailo_vdma_descriptors_list) (s ci lid : Nat) (sb dbg : Bool),
      Except.map (fun r => r.2)
        (program_buffers_loop vdma_hw buffers dl s ci lid sb dbg)
        = buffers_loop_outcome vdma_hw dl.desc_count dl.desc_page_size
            buffers s ci sb := by
  intro buffers
  induction buffers with
  | nil => intro dl s ci lid sb dbg; rfl
  | cons b rest ih =>
    intro dl s ci lid sb dbg
    have hb := program_descriptors_list_outcome_eq vdma_hw dl s b sb ci
      (if rest.isEmpty then lid else HAILO_VDMA_INTERRUPTS_DOMAIN_NONE) dbg
    unfold program_buffers_loop buffers_loop_outcome
    cases h1 : hailo_vdma_program_descriptors_list vdma_hw dl s b sb ci
        (if rest.isEmpty then lid else HAILO_VDMA_INTERRUPTS_DOMAIN_NONE)
        dbg with
    | error e =>
      rw [h1] at hb
      simp only [Except.map] at hb
      rw [← hb]
      simp [Except.map]
    | ok r =>
      obtain ⟨dl1, k1⟩ := r
      have hsh := (program_descriptors_list_preserve vdma_hw dl s b sb ci
        (if rest.isEmpty then lid else HAILO_VDMA_INTERRUPTS_DOMAIN_NONE)
        dbg dl1 k1 h1).1
      have hcount : dl1.desc_count = dl.desc_count :=
        congrArg (fun s => s.1) hsh
      have hpage : dl1.desc_page_size = dl.desc_page_size :=
        congrArg (fun s => s.2.2.1) hsh
      have hrest := ih dl1 (s + k1) ci lid sb dbg
      rw [hcount, hpage] at hrest
      rw [h1] at hb
      simp only [Except.map] at hb
      rw [← hb]
      dsimp only
      rw [← hrest]
      cases h2 : program_buffers_loop vdma_hw rest dl1 (s + k1) ci lid sb dbg with
      | error e => simp [Except.map]
      | ok r2 => simp [Except.map]

theorem except_isOk_map {ε α β : Type} (f : α → β) (x : Except ε α) :
    (Except.map f x).isOk = x.isOk := by
  cases x <;> rfl

theorem launch_transfer_full (vdma_hw : hailo_vdma_hw)
    (channel : hailo_vdma_channel) (dl : hailo_vdma_descriptors_list)
    (s : Nat) (buffers : List hailo_vdma_mapped_transfer_buffer) (sb : Bool)
    (fid lid : Nat) (dbg : Bool)
    (hfull : ongoing_transfers_full channel.ongoing_transfers = true) :
    hailo_vdma_launch_transfer vdma_hw channel dl s buffers sb fid lid dbg
      = (.error ENOBUFS_NEG, channel, dl) := by
  unfold hailo_vdma_launch_transfer
  rw [if_pos hfull]

theorem launch_transfer_success (vdma_hw : hailo_vdma_hw)
    (channel : hailo_vdma_channel) (dl : hailo_vdma_descriptors_list)
    (s : Nat) (buffers : List hailo_vdma_mapped_transfer_buffer) (sb : Bool)
    (fid lid : Nat) (dbg : Bool)
    (hfull : ongoing_transfers_full channel.ongoing_transfers = false)
    (hprog : (program_buffers_loop vdma_hw buffers dl s channel.index lid sb
      dbg).isOk = true) :
    (hailo_vdma_launch_transfer vdma_hw channel dl s buffers sb fid lid
        dbg).1.isOk = true
    ∧ (hailo_vdma_launch_transfer vdma_hw channel dl s buffers sb fid lid
        dbg).2.1.ongoing_transfers.tail = channel.ongoing_transfers.tail + 1
    ∧ (hailo_vdma_launch_transfer vdma_hw channel dl s buffers sb fid lid
        dbg).2.1.ongoing_transfers.head = channel.ongoing_transfers.head
    ∧ (hailo_vdma_launch_transfer vdma_hw channel dl s buffers sb fid lid
        dbg).2.1.index = channel.index
    ∧ desc_list_shape (hailo_vdma_launch_transfer vdma_hw channel dl s buffers
        sb fid lid dbg).2.2 = desc_list_shape dl := by
  unfold hailo_vdma_launch_transfer
  rw [if_neg (by simp [hfull])]
  cases hp : program_buffers_loop vdma_hw buffers dl s channel.index lid sb
      dbg with
  | error e => rw [hp] at hprog; simp [Except.isOk, Except.toBool] at hprog
  | ok r =>
    obtain ⟨dl1, t1⟩ := r
    dsimp only
    refine ⟨rfl, rfl, rfl, rfl, ?_⟩
    have hsh := (program_buffers_loop_preserve vdma_hw buffers dl s
      channel.index lid sb dbg dl1 t1 hp).1
    by_cases hf : fid = HAILO_VDMA_INTERRUPTS_DOMAIN_NONE
    · simp only [if_pos hf]
      exact hsh
    · simp only [if_neg hf]
      exact (write_descriptor_shape dl1 _ _).1.trans hsh

theorem program_buffers_loop_isOk_congr (vdma_hw : hailo_vdma_hw)
    (buffers : List hailo_vdma_mapped_transfer_buffer)
    (dl dl₂ : hailo_vdma_descriptors_list) (s ci lid : Nat) (sb dbg : Bool)
    (hsh : desc_list_shape dl₂ = desc_list_shape dl) :
    (program_buffers_loop vdma_hw buffers dl₂ s ci lid sb dbg).isOk
      = (program_buffers_loop vdma_hw buffers dl s ci lid sb dbg).isOk := by
  have h1 := program_buffers_loop_outcome_eq vdma_hw buffers dl₂ s ci lid sb dbg
  have h0 := program_buffers_loop_outcome_eq vdma_hw buffers dl s ci lid sb dbg
  have hcnt : dl₂.desc_count = dl.desc_count := congrArg (fun x => x.1) hsh
  have hpg : dl₂.desc_page_size = dl.desc_page_size :=
    congrArg (fun x => x.2.2.1) hsh
  rw [hcnt, hpg] at h1
  have h' := congrArg Except.isOk (h1.trans h0.symm)
  rw [except_isOk_map, except_isOk_map] at h'
  exact h'

theorem launch_transfer_iter_succ (vdma_hw : hailo_vdma_hw) (s : Nat)
    (buffers : List hailo_vdma_mapped_transfer_buffer) (sb : Bool)
    (fid lid : Nat) (dbg : Bool) :
    ∀ (n : Nat) (st : hailo_vdma_channel × hailo_vdma_descriptors_list),
      launch_transfer_iter vdma_hw s buffers sb fid lid dbg (n + 1) st
        = ((hailo_vdma_launch_transfer vdma_hw
              (launch_transfer_iter vdma_hw s buffers sb fid lid dbg n st).1
              (launch_transfer_iter vdma_hw s buffers sb fid lid dbg n st).2
              s buffers sb fid lid dbg).2.1,
           (hailo_vdma_launch_transfer vdma_hw
              (launch_transfer_iter vdma_hw s buffers sb fid lid dbg n st).1
              (launch_transfer_iter vdma_hw s buffers sb fid lid dbg n st).2
              s buffers sb fid lid dbg).2.2) := by
  intro n
  induction n with
  | zero => intro st; rfl
  | succ m ih =>
    intro st
    show launch_transfer_iter vdma_hw s buffers sb fid lid dbg (m + 1)
        ((hailo_vdma_launch_transfer vdma_hw st.1 st.2 s buffers sb fid lid
            dbg).2.1,
         (hailo_vdma_launch_transfer vdma_hw st.1 st.2 s buffers sb fid lid
            dbg).2.2) = _
    rw [ih]
    rfl

theorem launch_transfer_iter_invariant (vdma_hw : hailo_vdma_hw) (s : Nat)
    (buffers : List hailo_vdma_mapped_transfer_buffer) (sb : Bool)
    (fid lid : Nat) (dbg : Bool) (ch0 : hailo_vdma_channel)
    (dl0 : hailo_vdma_descriptors_list)
    (hempty : ch0.ongoing_transfers.tail = ch0.ongoing_transfers.head)
    (hprog : (program_buffers_loop vdma_hw buffers dl0 s ch0.index lid sb
      dbg).isOk = true) :
    ∀ i, i ≤ HAILO_VDMA_MAX_ONGOING_TRANSFERS →
      (launch_transfer_iter vdma_hw s buffers sb fid lid dbg i (ch0, dl0)).1.index
        = ch0.index
      ∧ (launch_transfer_iter vdma_hw s buffers sb fid lid dbg i
          (ch0, dl0)).1.ongoing_transfers.head
        = ch0.ongoing_transfers.head
      ∧ (launch_transfer_iter vdma_hw s buffers sb fid lid dbg i
          (ch0, dl0)).1.ongoing_transfers.tail
        = ch0.ongoing_transfers.head + i
      ∧ desc_list_shape
          (launch_transfer_iter vdma_hw s buffers sb fid lid dbg i (ch0, dl0)).2
        = desc_list_shape dl0 := by
  intro i
  induction i with
  | zero =>
    intro _
    refine ⟨rfl, rfl, ?_, rfl⟩
    show ch0.ongoing_transfers.tail = ch0.ongoing_transfers.head + 0
    omega
  | succ m ih =>
    intro hle
    obtain ⟨hidx, hhead, htail, hsh⟩ := ih (by omega)
    rw [launch_transfer_iter_succ]
    have hnotfull : ongoing_transfers_full
        (launch_transfer_iter vdma_hw s buffers sb fid lid dbg m
          (ch0, dl0)).1.ongoing_transfers = false := by
      simp only [ongoing_transfers_full, hhead, htail, decide_eq_false_iff_not]
      omega
    have hprog' : (program_buffers_loop vdma_hw buffers
        (launch_transfer_iter vdma_hw s buffers sb fid lid dbg m (ch0, dl0)).2
        s (launch_transfer_iter vdma_hw s buffers sb fid lid dbg m
            (ch0, dl0)).1.index lid sb dbg).isOk = true := by
      rw [hidx]
      rw [program_buffers_loop_isOk_congr vdma_hw buffers dl0 _ s ch0.index
        lid sb dbg hsh]
      exact hprog
    have hs := launch_transfer_success vdma_hw _ _ s buffers sb fid lid dbg
      hnotfull hprog'
    refine ⟨hs.2.2.2.1.trans hidx, hs.2.2.1.trans hhead, ?_,
      hs.2.2.2.2.trans hsh⟩
    rw [hs.2.1, htail]
    omega

theorem ongoing_transfers_pop_head (q : hailo_ongoing_transfers_list) :
    (ongoing_transfers_pop q).head = q.head + 1 := rfl

theorem ongoing_transfers_pop_tail (q : hailo_ongoing_transfers_list) :
    (ongoing_transfers_pop q).tail = q.tail := rfl

theorem channel_with_queue_ongoing (ch : hailo_vdma_channel)
    (q : hailo_ongoing_transfers_list) :
    ({ ch with ongoing_transfers := q } : hailo_vdma_channel).ongoing_transfers
      = q := rfl

theorem channel_with_queue_index (ch : hailo_vdma_channel)
    (q : hailo_ongoing_transfers_list) :
    ({ ch with ongoing_transfers := q } : hailo_vdma_channel).index
      = ch.index := rfl

/-- Claim C3: starting from an empty Ongoing Transfer Queue, with transfer
parameters whose descriptor programming succeeds,
`hailo_vdma_launch_transfer` succeeds on each of the first
`HAILO_VDMA_MAX_ONGOING_TRANSFERS` submissions and reports the queue-full
backpressure error on the next one (the queue is full exactly when
tail − head reaches the capacity); after one completed transfer is
drained (popped from the queue head), exactly one more submission
succeeds: the next submission is accepted and the one after it fails
again. -/
theorem launch_transfer_queue_backpressure (vdma_hw : hailo_vdma_hw)
    (ch0 : hailo_vdma_channel) (dl0 : hailo_vdma_descriptors_list) (s : Nat)
    (buffers : List hailo_vdma_mapped_transfer_buffer) (sb : Bool)
    (fid lid : Nat) (dbg : Bool)
    (hempty : ch0.ongoing_transfers.tail = ch0.ongoing_transfers.head)
    (hprog : (program_buffers_loop vdma_hw buffers dl0 s ch0.index lid sb
      dbg).isOk = true) :
    (∀ i, i < HAILO_VDMA_MAX_ONGOING_TRANSFERS →
      (hailo_vdma_launch_transfer vdma_hw
        (launch_transfer_iter vdma_hw s buffers sb fid lid dbg i (ch0, dl0)).1
        (launch_transfer_iter vdma_hw s buffers sb fid lid dbg i (ch0, dl0)).2
        s buffers sb fid lid dbg).1.isOk = true)
    ∧ (hailo_vdma_launch_transfer vdma_hw
        (launch_transfer_iter vdma_hw s buffers sb fid lid dbg
          HAILO_VDMA_MAX_ONGOING_TRANSFERS (ch0, dl0)).1
        (launch_transfer_iter vdma_hw s buffers sb fid lid dbg
          HAILO_VDMA_MAX_ONGOING_TRANSFERS (ch0, dl0)).2
        s buffers sb fid lid dbg).1 = .error ENOBUFS_NEG
    ∧ (hailo_vdma_launch_transfer vdma_hw
        { (launch_transfer_iter vdma_hw s buffers sb fid lid dbg
            HAILO_VDMA_MAX_ONGOING_TRANSFERS (ch0, dl0)).1 with
          ongoing_transfers := ongoing_transfers_pop
            (launch_transfer_iter vdma_hw s buffers sb fid lid dbg
              HAILO_VDMA_MAX_ONGOING_TRANSFERS (ch0, dl0)).1.ongoing_transfers }
        (launch_transfer_iter vdma_hw s buffers sb fid lid dbg
          HAILO_VDMA_MAX_ONGOING_TRANSFERS (ch0, dl0)).2
        s buffers sb fid lid dbg).1.isOk = true
    ∧ (hailo_vdma_launch_transfer vdma_hw
        (hailo_vdma_launch_transfer vdma_hw
          { (launch_transfer_iter vdma_hw s buffers sb fid lid dbg
              HAILO_VDMA_MAX_ONGOING_TRANSFERS (ch0, dl0)).1 with
            ongoing_transfers := ongoing_transfers_pop
              (launch_transfer_iter vdma_hw s buffers sb fid lid dbg
                HAILO_VDMA_MAX_ONGOING_TRANSFERS (ch0, dl0)).1.ongoing_transfers }
          (launch_transfer_iter vdma_hw s buffers sb fid lid dbg
            HAILO_VDMA_MAX_ONGOING_TRANSFERS (ch0, dl0)).2
          s buffers sb fid lid dbg).2.1
        (hailo_vdma_launch_transfer vdma_hw
          { (launch_transfer_iter vdma_hw s buffers sb fid lid dbg
              HAILO_VDMA_MAX_ONGOING_TRANSFERS (ch0, dl0)).1 with
            ongoing_transfers := ongoing_transfers_pop
              (launch_transfer_iter vdma_hw s buffers sb fid lid dbg
                HAILO_VDMA_MAX_ONGOING_TRANSFERS (ch0, dl0)).1.ongoing_transfers }
          (launch_transfer_iter vdma_hw s buffers sb fid lid dbg
            HAILO_VDMA_MAX_ONGOING_TRANSFERS (ch0, dl0)).2
          s buffers sb fid lid dbg).2.2
        s buffers sb fid lid dbg).1 = .error ENOBUFS_NEG := by
  have hC : HAILO_VDMA_MAX_ONGOING_TRANSFERS = 128 := rfl
  have hinv := launch_transfer_iter_invariant vdma_hw s buffers sb fid lid dbg
    ch0 dl0 hempty hprog
  obtain ⟨hidxC, hheadC, htailC, hshC⟩ :=
    hinv HAILO_VDMA_MAX_ONGOING_TRANSFERS (le_refl _)
  set ST := launch_transfer_iter vdma_hw s buffers sb fid lid dbg
    HAILO_VDMA_MAX_ONGOING_TRANSFERS (ch0, dl0) with hST
  clear hST
  clear_value ST
  have hfullC : ongoing_transfers_full ST.1.ongoing_transfers = true := by
    simp only [ongoing_transfers_full, hheadC, htailC, decide_eq_true_eq]
    omega
  have hpop_head : (ongoing_transfers_pop ST.1.ongoing_transfers).head
      = ch0.ongoing_transfers.head + 1 := by
    rw [ongoing_transfers_pop_head, hheadC]
  have hpop_tail : (ongoing_transfers_pop ST.1.ongoing_transfers).tail
      = ch0.ongoing_transfers.head + HAILO_VDMA_MAX_ONGOING_TRANSFERS := by
    rw [ongoing_transfers_pop_tail, htailC]
  have hdnotfull : ongoing_transfers_full
      ({ ST.1 with ongoing_transfers :=
          ongoing_transfers_pop ST.1.ongoing_transfers } :
        hailo_vdma_channel).ongoing_transfers = false := by
    rw [channel_with_queue_ongoing]
    simp only [ongoing_transfers_full, hpop_head, hpop_tail,
      decide_eq_false_iff_not]
    omega
  have hprogD : (program_buffers_loop vdma_hw buffers ST.2 s
      ({ ST.1 with ongoing_transfers :=
          ongoing_transfers_pop ST.1.ongoing_transfers } :
        hailo_vdma_channel).index lid sb dbg).isOk = true := by
    rw [channel_with_queue_index, hidxC]
    rw [program_buffers_loop_isOk_congr vdma_hw buffers dl0 _ s ch0.index lid
      sb dbg hshC]
    exact hprog
  have hs3 := launch_transfer_success vdma_hw _ _ s buffers sb fid lid dbg
    hdnotfull hprogD
  refine ⟨?_, ?_, hs3.1, ?_⟩
  · intro i hi
    obtain ⟨hidx, hhead, htail, hsh⟩ := hinv i (Nat.le_of_lt hi)
    have hnotfull : ongoing_transfers_full
        (launch_transfer_iter vdma_hw s buffers sb fid lid dbg i
          (ch0, dl0)).1.ongoing_transfers = false := by
      simp only [ongoing_transfers_full, hhead, htail,
        decide_eq_false_iff_not]
      omega
    have hprog' : (program_buffers_loop vdma_hw buffers
        (launch_transfer_iter vdma_hw s buffers sb fid lid dbg i (ch0, dl0)).2
        s (launch_transfer_iter vdma_hw s buffers sb fid lid dbg i
            (ch0, dl0)).1.index lid sb dbg).isOk = true := by
      rw [hidx]
      rw [program_buffers_loop_isOk_congr vdma_hw buffers dl0 _ s ch0.index
        lid sb dbg hsh]
      exact hprog
    exact (launch_transfer_success vdma_hw _ _ s buffers sb fid lid dbg
      hnotfull hprog').1
  · rw [launch_transfer_full vdma_hw _ _ s buffers sb fid lid dbg hfullC]
  · have ht4 := hs3.2.1
    have hh4 := hs3.2.2.1
    rw [channel_with_queue_ongoing, hpop_tail] at ht4
    rw [channel_with_queue_ongoing, hpop_head] at hh4
    have hfull4 : ongoing_transfers_full
        (hailo_vdma_launch_transfer vdma_hw
          { ST.1 with ongoing_transfers :=
              ongoing_transfers_pop ST.1.ongoing_transfers }
          ST.2 s buffers sb fid lid dbg).2.1.ongoing_transfers = true := by
      simp only [ongoing_transfers_full, ht4, hh4, decide_eq_true_eq]
      omega
    rw [launch_transfer_full vdma_hw _ _ s buffers sb fid lid dbg hfull4]

/-- Witness for claim C3 at the concrete fixtures: `chT`'s queue is empty,
programming `bufT` on `dlT` succeeds, and the first submission (i = 0) is
accepted. -/
theorem launch_transfer_queue_backpressure_witness :
    chT.ongoing_transfers.tail = chT.ongoing_transfers.head
    ∧ (program_buffers_loop hwT [bufT] dlT 0 chT.index 0 true false).isOk
        = true
    ∧ (hailo_vdma_launch_transfer hwT
        (launch_transfer_iter hwT 0 [bufT] true 0 0 false 0 (chT, dlT)).1
        (launch_transfer_iter hwT 0 [bufT] true 0 0 false 0 (chT, dlT)).2
        0 [bufT] true 0 0 false).1.isOk = true :=
  ⟨rfl, rfl,
    (launch_transfer_queue_backpressure hwT chT dlT 0 [bufT] true 0 0 false
      rfl rfl).1 0 (by decide)⟩

theorem div_round_up_pos (a b : Nat) (ha : 0 < a) (hb : 0 < b) :
    0 < div_round_up a b := by
  show 1 ≤ (a + b - 1) / b
  rw [Nat.le_div_iff_mul_le hb]
  omega

theorem div_round_up_of_mod_eq_zero (a b : Nat) (hb : 0 < b)
    (h : a % b = 0) : div_round_up a b = a / b := by
  obtain ⟨m, rfl⟩ := Nat.dvd_of_mod_eq_zero h
  unfold div_round_up
  rw [show b * m + b - 1 = (b - 1) + b * m from by omega,
    Nat.add_mul_div_left _ _ hb, Nat.mul_div_cancel_left _ hb,
    Nat.div_eq_of_lt (by omega)]
  omega

theorem div_round_up_of_mod_ne_zero (a b : Nat) (hb : 0 < b)
    (h : a % b ≠ 0) : div_round_up a b = a / b + 1 := by
  have hdm := Nat.div_add_mod a b
  have hmod := Nat.mod_lt a hb
  have h1 : (a % b + b - 1) / b = 1 := by
    apply Nat.div_eq_of_lt_le
    · omega
    · omega
  unfold div_round_up
  rw [show a + b - 1 = (a % b + b - 1) + b * (a / b) from by omega,
    Nat.add_mul_div_left _ _ hb, h1]
  omega

theorem chunk_residue_eq (len page : Nat) (hp : 0 < page) (hl : 0 < len) :
    (if len % page = 0 then page else len % page)
      = len - (div_round_up len page - 1) * page := by
  by_cases h : len % page = 0
  · rw [if_pos h, div_round_up_of_mod_eq_zero len page hp h]
    have hdm := Nat.div_add_mod len page
    have hq : 0 < len / page := by
      rcases Nat.eq_zero_or_pos (len / page) with h0 | h0
      · rw [h0] at hdm; omega
      · exact h0
    rw [Nat.sub_one_mul]
    have hcomm : len / page * page = page * (len / page) := Nat.mul_comm _ _
    have hple : page ≤ len / page * page := Nat.le_mul_of_pos_left page hq
    omega
  · rw [if_neg h, div_round_up_of_mod_ne_zero len page hp h]
    have hdm := Nat.div_add_mod len page
    have hcomm : len / page * page = page * (len / page) := Nat.mul_comm _ _
    rw [Nat.add_sub_cancel]
    omega

theorem div_round_up_add_multiple (m s b : Nat) (hb : 0 < b)
    (hdvd : m % b = 0) :
    div_round_up (m + s) b = m / b + div_round_up s b := by
  obtain ⟨q, rfl⟩ := Nat.dvd_of_mod_eq_zero hdvd
  unfold div_round_up
  rw [show b * q + s + b - 1 = (s + b - 1) + b * q from by omega,
    Nat.add_mul_div_left _ _ hb, Nat.mul_div_cancel_left _ hb]
  omega

theorem list_getD_set_self {α : Type} (l : List α) (i : Nat) (a d : α)
    (h : i < l.length) : (l.set i a).getD i d = a := by
  rw [List.getD_eq_getElem?_getD, List.getElem?_set_self h]
  rfl

theorem list_set_getD_self {α : Type} :
    ∀ (l : List α) (i : Nat) (d : α), l.set i (l.getD i d) = l := by
  intro l
  induction l with
  | nil => intro i d; rfl
  | cons a t ih =>
    intro i d
    cases i with
    | zero => rfl
    | succ n =>
      show a :: t.set n ((a :: t).getD (n + 1) d) = a :: t
      have : (a :: t).getD (n + 1) d = t.getD n d := by
        rw [List.getD_eq_getElem?_getD, List.getD_eq_getElem?_getD,
          List.getElem?_cons_succ]
      rw [this, ih]

theorem desc_ring_index_congr (dl dl₂ : hailo_vdma_descriptors_list) (j : Nat)
    (hsh : desc_list_shape dl₂ = desc_list_shape dl) :
    desc_ring_index dl₂ j = desc_ring_index dl j := by
  have hcirc : dl₂.is_circular = dl.is_circular :=
    congrArg (fun x => x.2.2.2) hsh
  have hmask : dl₂.desc_count_mask = dl.desc_count_mask :=
    congrArg (fun x => x.2.1) hsh
  unfold desc_ring_index
  rw [hcirc, hmask]

theorem write_descriptor_getD (dl : hailo_vdma_descriptors_list) (i : Nat)
    (v d : hailo_vdma_descriptor) (h : i < dl.desc_list.length) :
    (write_descriptor dl i v).desc_list.getD i d = v := by
  show (dl.desc_list.set i v).getD i d = v
  exact list_getD_set_self dl.desc_list i v d h

theorem apply_chunk_writes_last (dl : hailo_vdma_descriptors_list)
    (enc len i did : Nat) (hp : 0 < dl.desc_page_size) (hl : 0 < len)
    (hcirc : dl.is_circular = true)
    (hmask : dl.desc_count_mask + 1 = dl.desc_count)
    (hlen : dl.desc_list.length = dl.desc_count) :
    (apply_writes dl (chunk_writes dl enc len i did)).desc_list.getD
        (desc_ring_index dl (i + div_round_up len dl.desc_page_size - 1))
        default
      = chunk_descriptor enc len dl.desc_page_size did
          (div_round_up len dl.desc_page_size - 1)
          (div_round_up len dl.desc_page_size) := by
  have hkpos : 0 < div_round_up len dl.desc_page_size :=
    div_round_up_pos len _ hl hp
  obtain ⟨m, hm⟩ : ∃ m, div_round_up len dl.desc_page_size = m + 1 :=
    ⟨div_round_up len dl.desc_page_size - 1, by omega⟩
  have hsplit : chunk_writes dl enc len i did
      = (List.range m).map (fun j => (desc_ring_index dl (i + j),
          chunk_descriptor enc len dl.desc_page_size did j
            (div_round_up len dl.desc_page_size)))
        ++ [(desc_ring_index dl (i + m),
            chunk_descriptor enc len dl.desc_page_size did m
              (div_round_up len dl.desc_page_size))] := by
    unfold chunk_writes
    rw [hm, List.range_succ, List.map_append]
    rfl
  rw [hsplit]
  unfold apply_writes
  rw [List.foldl_append]
  show (write_descriptor (apply_writes dl _) (desc_ring_index dl (i + m))
      (chunk_descriptor enc len dl.desc_page_size did m
        (div_round_up len dl.desc_page_size))).desc_list.getD
      (desc_ring_index dl (i + div_round_up len dl.desc_page_size - 1))
      default = _
  rw [show i + div_round_up len dl.desc_page_size - 1 = i + m from by omega]
  have hb : desc_ring_index dl (i + m) ≤ dl.desc_count_mask := by
    unfold desc_ring_index
    rw [hcirc]
    simp only [if_true]
    exact Nat.and_le_right
  rw [write_descriptor_getD _ _ _ _
    (by rw [(apply_writes_shape _ dl).2, hlen]; omega)]
  rw [hm, Nat.add_sub_cancel]

theorem program_descriptors_in_chunk_last_value (vdma_hw : hailo_vdma_hw)
    (a len : Nat) (dl : hailo_vdma_descriptors_list) (i mx ci did : Nat)
    (dl' : hailo_vdma_descriptors_list)
    (ws : List (Nat × hailo_vdma_descriptor)) (k : Nat)
    (h : hailo_vdma_program_descriptors_in_chunk vdma_hw a len dl i mx ci did
      = .ok (dl', ws, k))
    (hp : 0 < dl.desc_page_size) (hl : 0 < len)
    (hcirc : dl.is_circular = true)
    (hmask : dl.desc_count_mask + 1 = dl.desc_count)
    (hlen : dl.desc_list.length = dl.desc_count) :
    0 < k
    ∧ k = div_round_up len dl.desc_page_size
    ∧ (dl'.desc_list.getD (desc_ring_index dl (i + k - 1)) default).size
        = len - (k - 1) * dl.desc_page_size
    ∧ (dl'.desc_list.getD (desc_ring_index dl (i + k - 1))
          default).interrupts_domain
        = HAILO_VDMA_INTERRUPTS_DOMAIN_NONE := by
  unfold hailo_vdma_program_descriptors_in_chunk at h
  by_cases h1 : mx - i < div_round_up len dl.desc_page_size
  · simp [h1] at h
  · by_cases h2 : vdma_hw.encode_desc_dma_address_range a (a + len)
        dl.desc_page_size ci = INVALID_VDMA_ADDRESS
    · simp [h1, h2] at h
    · simp [h1, h2] at h
      obtain ⟨hdl, -, hk⟩ := h
      subst hdl
      subst hk
      have hkpos : 0 < div_round_up len dl.desc_page_size :=
        div_round_up_pos len _ hl hp
      have hv := apply_chunk_writes_last dl
        (vdma_hw.encode_desc_dma_address_range a (a + len) dl.desc_page_size
          ci) len i did hp hl hcirc hmask hlen
      rw [hv]
      refine ⟨hkpos, rfl, ?_, rfl⟩
      show (if div_round_up len dl.desc_page_size - 1 + 1
            = div_round_up len dl.desc_page_size then
          (if len % dl.desc_page_size = 0 then dl.desc_page_size
            else len % dl.desc_page_size)
          else dl.desc_page_size)
        = len - (div_round_up len dl.desc_page_size - 1) * dl.desc_page_size
  
      rw [if_pos (by omega)]
      exact chunk_residue_eq len dl.desc_page_size hp hl

theorem div_round_up_zero (b : Nat) (hb : 0 < b) : div_round_up 0 b = 0 := by
  unfold div_round_up
  rw [Nat.zero_add]
  exact Nat.div_eq_of_lt (by omega)

theorem program_chunks_loop_last_value (vdma_hw : hailo_vdma_hw) :
    ∀ (chunks : List (Nat × Nat)) (dl : hailo_vdma_descriptors_list)
      (i mx ci did : Nat) (dl' : hailo_vdma_descriptors_list) (t : Nat),
      program_chunks_loop vdma_hw chunks dl i mx ci did = .ok (dl', t) →
      0 < dl.desc_page_size →
      dl.is_circular = true →
      dl.desc_count_mask + 1 = dl.desc_count →
      dl.desc_list.length = dl.desc_count →
      (∀ c ∈ chunks, 0 < c.2) →
      (∀ c ∈ chunks.dropLast, c.2 % dl.desc_page_size = 0) →
      t = div_round_up ((chunks.map (fun c => c.2)).sum) dl.desc_page_size
      ∧ (chunks ≠ [] →
          0 < t
          ∧ (dl'.desc_list.getD (desc_ring_index dl (i + t - 1)) default).size
              = (chunks.map (fun c => c.2)).sum - (t - 1) * dl.desc_page_size
          ∧ (dl'.desc_list.getD (desc_ring_index dl (i + t - 1))
                default).interrupts_domain
              = HAILO_VDMA_INTERRUPTS_DOMAIN_NONE) := by
  intro chunks
  induction chunks with
  | nil =>
    intro dl i mx ci did dl' t h hp hcirc hmask hlen hpos hdiv
    simp [program_chunks_loop] at h
    obtain ⟨hdl, ht⟩ := h
    subst hdl
    refine ⟨?_, fun hne => absurd rfl hne⟩
    rw [← ht]
    simp [div_round_up_zero _ hp]
  | cons c rest ih =>
    intro dl i mx ci did dl' t h hp hcirc hmask hlen hpos hdiv
    obtain ⟨a, len⟩ := c
    unfold program_chunks_loop at h
    cases h1 : hailo_vdma_program_descriptors_in_chunk vdma_hw a len dl i mx
        ci did with
    | error e => rw [h1] at h; simp at h
    | ok r =>
      rw [h1] at h
      obtain ⟨dl1, ws1, k1⟩ := r
      dsimp only at h
      cases h2 : program_chunks_loop vdma_hw rest dl1 (i + k1) mx ci did with
      | error e => rw [h2] at h; simp at h
      | ok r2 =>
        rw [h2] at h
        obtain ⟨dl2, t2⟩ := r2
        simp at h
        obtain ⟨hdl, ht⟩ := h
        subst hdl
        have hpres := program_descriptors_in_chunk_preserve vdma_hw a len dl
          i mx ci did dl1 ws1 k1 h1
        have hsh := hpres.1
        have hpage1 : dl1.desc_page_size = dl.desc_page_size :=
          congrArg (fun x => x.2.2.1) hsh
        have hcirc1 : dl1.is_circular = dl.is_circular :=
          congrArg (fun x => x.2.2.2) hsh
        have hmask1 : dl1.desc_count_mask = dl.desc_count_mask :=
          congrArg (fun x => x.2.1) hsh
        have hcount1 : dl1.desc_count = dl.desc_count :=
          congrArg (fun x => x.1) hsh
        have hlen1 : dl1.desc_list.length = dl1.desc_count := by
          rw [hpres.2, hlen, hcount1]
        have hlpos : 0 < len := hpos (a, len) (by simp)
        obtain ⟨hk1pos, hk1, hsize1, hint1⟩ :=
          program_descriptors_in_chunk_last_value vdma_hw a len dl i mx ci
            did dl1 ws1 k1 h1 hp hlpos hcirc hmask hlen
        by_cases hrest : rest = []
        · subst hrest
          simp [program_chunks_loop] at h2
          obtain ⟨hdl2, ht2⟩ := h2
          subst hdl2
          refine ⟨?_, fun _ => ⟨by omega, ?_, ?_⟩⟩
          · simp only [List.map_cons, List.map_nil, List.sum_cons,
              List.sum_nil]
            rw [← ht, ← ht2]
            rw [show len + 0 = len from by omega, show k1 + 0 = k1 from by
              omega]
            exact hk1
          · simp only [List.map_cons, List.map_nil, List.sum_cons,
              List.sum_nil]
            rw [← ht, ← ht2]
            rw [show k1 + 0 = k1 from by omega,
              show len + 0 = len from by omega]
            exact hsize1
          · rw [← ht, ← ht2, show k1 + 0 = k1 from by omega]
            exact hint1
        · have hdiv_head : len % dl.desc_page_size = 0 := by
            refine hdiv (a, len) ?_
            rw [List.dropLast_cons_of_ne_nil hrest]
            simp
          obtain ⟨ht2eq, hval⟩ := ih dl1 (i + k1) mx ci did dl2 t2 h2
            (by rw [hpage1]; exact hp) (hcirc1.trans hcirc)
            (by rw [hmask1, hcount1]; exact hmask) hlen1
            (fun c hc => hpos c (by simp [hc]))
            (fun c hc => by
              rw [hpage1]
              refine hdiv c ?_
              rw [List.dropLast_cons_of_ne_nil hrest]
              exact List.mem_cons_of_mem _ hc)
          obtain ⟨ht2pos, hsize2, hint2⟩ := hval hrest
          rw [hpage1] at ht2eq hsize2
          have hk1' : k1 = len / dl.desc_page_size := by
            rw [hk1, div_round_up_of_mod_eq_zero _ _ hp hdiv_head]
          have hk1mul : k1 * dl.desc_page_size = len := by
            rw [hk1']
            exact Nat.div_mul_cancel (Nat.dvd_of_mod_eq_zero hdiv_head)
          have hidxcongr := desc_ring_index_congr dl dl1
            (i + k1 + t2 - 1) hsh
          have hidx : i + k1 + t2 - 1 = i + t - 1 := by omega
          refine ⟨?_, fun _ => ⟨by omega, ?_, ?_⟩⟩
          · simp only [List.map_cons, List.sum_cons]
            rw [← ht, div_round_up_add_multiple len _ _ hp hdiv_head,
              ← hk1', ht2eq]
          · simp only [List.map_cons, List.sum_cons]
            rw [hidxcongr, hidx] at hsize2
            rw [hsize2]
            have hsplit : (t - 1) * dl.desc_page_size
                = k1 * dl.desc_page_size + (t2 - 1) * dl.desc_page_size := by
              rw [← Nat.add_mul]
              refine congrArg (fun x => x * dl.desc_page_size) ?_
              omega
            rw [hsplit, hk1mul]
            omega
          · rw [hidxcongr, hidx] at hint2
            exact hint2

theorem write_descriptor_refresh (dl : hailo_vdma_descriptors_list)
    (i S lid : Nat)
    (hsize : (dl.desc_list.getD i default).size = S)
    (hint : (dl.desc_list.getD i default).interrupts_domain = lid) :
    write_descriptor dl i
      { dl.desc_list.getD i default with
        size := S, interrupts_domain := lid } = dl := by
  have hv : ({ dl.desc_list.getD i default with
      size := S, interrupts_domain := lid } : hailo_vdma_descriptor)
      = dl.desc_list.getD i default := by
    rw [← hsize, ← hint]
  rw [hv]
  show { dl with desc_list :=
    dl.desc_list.set i (dl.desc_list.getD i default) } = dl
  rw [list_set_getD_self]

/-- Claim C8: calling `hailo_vdma_program_descriptors_list` with
`should_bind = false` after a prior successful call that bound the same
buffer to the same region of the list reproduces identical descriptor
contents — the list comes back unchanged, with the same count — without
re-deriving segment boundaries (the bind-skip path never reads the
scatter-gather table).  Assumes the well-formedness the driver
guarantees: a circular power-of-two list whose backing array has
`desc_count` entries, and a scatter-gather mapping whose chunks are
positive, multiples of the page size except the last, and sum to the
buffer size. -/
theorem program_descriptors_list_bind_skip_idempotent
    (vdma_hw : hailo_vdma_hw) (dl : hailo_vdma_descriptors_list)
    (starting_desc : Nat) (buffer : hailo_vdma_mapped_transfer_buffer)
    (channel_index lid : Nat) (dbg dbg₂ : Bool)
    (hp : 0 < dl.desc_page_size)
    (hcirc : dl.is_circular = true)
    (hmask : dl.desc_count_mask + 1 = dl.desc_count)
    (hlen : dl.desc_list.length = dl.desc_count)
    (hchunks_pos : ∀ c ∈ sg_chunks buffer.sg_table buffer.offset buffer.size,
      0 < c.2)
    (hchunks_div : ∀ c ∈ (sg_chunks buffer.sg_table buffer.offset
      buffer.size).dropLast, c.2 % dl.desc_page_size = 0)
    (hchunks_sum : ((sg_chunks buffer.sg_table buffer.offset
      buffer.size).map (fun c => c.2)).sum = buffer.size)
    (dl' : hailo_vdma_descriptors_list) (n : Nat)
    (hbind : hailo_vdma_program_descriptors_list vdma_hw dl starting_desc
      buffer true channel_index lid dbg = .ok (dl', n)) :
    hailo_vdma_program_descriptors_list vdma_hw dl' starting_desc buffer
      false channel_index lid dbg₂ = .ok (dl', n) := by
  unfold hailo_vdma_program_descriptors_list at hbind
  rw [if_pos rfl] at hbind
  unfold bind_and_program_descriptors_list at hbind
  dsimp only at hbind
  cases hc : program_chunks_loop vdma_hw
      (sg_chunks buffer.sg_table buffer.offset buffer.size) dl starting_desc
      (starting_desc + dl.desc_count - 1) channel_index
      vdma_hw.ddr_data_id with
  | error e => rw [hc] at hbind; simp at hbind
  | ok r =>
    rw [hc] at hbind
    obtain ⟨dlc, total⟩ := r
    dsimp only at hbind
    by_cases h0 : total = 0
    · rw [if_pos h0] at hbind
      simp at hbind
    · rw [if_neg h0] at hbind
      simp only [Except.ok.injEq, Prod.mk.injEq] at hbind
      obtain ⟨hdl', hn⟩ := hbind
      subst hn
      obtain ⟨hteq, hval⟩ := program_chunks_loop_last_value vdma_hw _ dl
        starting_desc (starting_desc + dl.desc_count - 1) channel_index
        vdma_hw.ddr_data_id dlc total hc hp hcirc hmask hlen hchunks_pos
        hchunks_div
      have hne : sg_chunks buffer.sg_table buffer.offset buffer.size
          ≠ [] := by
        intro he
        rw [he] at hteq
        simp [div_round_up_zero _ hp] at hteq
        exact h0 hteq
      obtain ⟨htpos, hsize, hint⟩ := hval hne
      have hpresC := program_chunks_loop_preserve vdma_hw _ dl starting_desc
        (starting_desc + dl.desc_count - 1) channel_index
        vdma_hw.ddr_data_id dlc total hc
      have hshC := hpresC.1
      have hpageC : dlc.desc_page_size = dl.desc_page_size :=
        congrArg (fun x => x.2.2.1) hshC
      have hlenC : dlc.desc_list.length = dl.desc_count := by
        rw [hpresC.2, hlen]
      have hidxC : desc_ring_index dlc (starting_desc + total - 1)
          = desc_ring_index dl (starting_desc + total - 1) :=
        desc_ring_index_congr dl dlc _ hshC
      have hbound : desc_ring_index dl (starting_desc + total - 1)
          < dlc.desc_list.length := by
        unfold desc_ring_index
        rw [hcirc]
        simp only [if_pos]
        have hand := @Nat.and_le_right (starting_desc + total - 1)
          dl.desc_count_mask
        omega
      rw [hidxC] at hdl'
      have hsh' : desc_list_shape dl' = desc_list_shape dl := by
        rw [← hdl']
        exact hshC
      have hpage' : dl'.desc_page_size = dl.desc_page_size :=
        congrArg (fun x => x.2.2.1) hsh'
      have hold : dl'.desc_list.getD
          (desc_ring_index dl (starting_desc + total - 1)) default
          = { dlc.desc_list.getD
                (desc_ring_index dl (starting_desc + total - 1)) default with
              interrupts_domain := lid } := by
        rw [← hdl']
        exact write_descriptor_getD dlc _ _ default hbound
      have hT' : div_round_up buffer.size dl'.desc_page_size = total := by
        rw [hpage', ← hchunks_sum]
        exact hteq.symm
      have hsize' : (dl'.desc_list.getD
          (desc_ring_index dl' (starting_desc + total - 1)) default).size
          = buffer.size - (total - 1) * dl'.desc_page_size := by
        rw [desc_ring_index_congr dl dl' _ hsh', hold]
        show (dlc.desc_list.getD
          (desc_ring_index dl (starting_desc + total - 1)) default).size = _
        rw [hsize, hpage', hchunks_sum]
      have hint' : (dl'.desc_list.getD
          (desc_ring_index dl' (starting_desc + total - 1))
          default).interrupts_domain = lid := by
        rw [desc_ring_index_congr dl dl' _ hsh', hold]
      unfold hailo_vdma_program_descriptors_list
      rw [if_neg (by simp)]
      unfold program_last_desc
      dsimp only
      rw [hT']
      rw [write_descriptor_refresh dl'
        (desc_ring_index dl' (starting_desc + total - 1))
        (buffer.size - (total - 1) * dl'.desc_page_size) lid hsize' hint']

/-- Witness for claim C8: rebinding is skipped for `bufT` on the already
bound `dlT8` and the call reproduces the identical list and count. -/
theorem program_descriptors_list_bind_skip_idempotent_witness :
    0 < dlT.desc_page_size
    ∧ dlT.is_circular = true
    ∧ dlT.desc_count_mask + 1 = dlT.desc_count
    ∧ dlT.desc_list.length = dlT.desc_count
    ∧ (∀ c ∈ sg_chunks bufT.sg_table bufT.offset bufT.size, 0 < c.2)
    ∧ (∀ c ∈ (sg_chunks bufT.sg_table bufT.offset bufT.size).dropLast,
        c.2 % dlT.desc_page_size = 0)
    ∧ ((sg_chunks bufT.sg_table bufT.offset bufT.size).map
        (fun c => c.2)).sum = bufT.size
    ∧ hailo_vdma_program_descriptors_list hwT dlT 0 bufT true 0
        HAILO_VDMA_INTERRUPTS_DOMAIN_HOST false = .ok (dlT8, 3)
    ∧ hailo_vdma_program_descriptors_list hwT dlT8 0 bufT false 0
        HAILO_VDMA_INTERRUPTS_DOMAIN_HOST false = .ok (dlT8, 3) :=
  ⟨by decide, rfl, rfl, by decide, by decide, by decide, by decide, rfl,
    program_descriptors_list_bind_skip_idempotent hwT dlT 0 bufT 0
      HAILO_VDMA_INTERRUPTS_DOMAIN_HOST false false (by decide) rfl rfl
      (by decide) (by decide) (by decide) (by decide) dlT8 3 rfl⟩
